import Mathlib

/-!
Verification development for the TAP (Trusted Agent Protocol) cryptographic
core of the agentic-commerce stack: a shallow embedding of
`src/shared/tap/signer.py`, `src/shared/tap/verifier.py` and
`src/mock-merchant/app/security/tap_middleware.py`, together with theorems
settling the specification claims about them.

Conventions of the embedding:
* Python `str` values are Lean `String`s; all character-level processing is
  done on `List Char` (`String.data`).
* Python `int` is Lean `Int` (timestamps can be compared and subtracted).
* The `re.search` calls of the verifier are modelled by explicit scanners
  that try to match the literal pattern at every position, exactly as the
  regex engine does for these patterns.
* The cryptographic primitives (ed25519, RSA-PSS, SHA-256, base64) live in
  the `cryptography` / `base64` libraries, outside this repository; they are
  modelled by an abstract `CryptoPrims` bundle.  Theorems assume only the
  contracts the code relies on (sign/verify correctness, base64 round-trip),
  and witnesses instantiate `CryptoPrims` with an executable toy instance.
* Python code that can raise an uncaught exception (the `None` comparisons
  in `TAPVerifier.verify`) is modelled with `Option`: `none` is an uncaught
  exception escaping `verify`.
-/

set_option maxRecDepth 100000

namespace TAP

/-- ASCII lower-casing of a character, as `str.lower` acts on header names
(all strings involved are ASCII). -/
def asciiLower (c : Char) : Char :=
  if 'A' ≤ c ∧ c ≤ 'Z' then Char.ofNat (c.toNat + 32) else c

/-- ASCII upper-casing, as `str.upper` acts on HTTP methods. -/
def asciiUpper (c : Char) : Char :=
  if 'a' ≤ c ∧ c ≤ 'z' then Char.ofNat (c.toNat - 32) else c

/-- `str.lower` on a whole string. -/
def lowerStr (s : String) : String := String.mk (s.data.map asciiLower)

/-- `str.upper` on a whole string. -/
def upperStr (s : String) : String := String.mk (s.data.map asciiUpper)

/-- Boolean prefix test on character lists (`pat` begins `l`). -/
def listPre : List Char → List Char → Bool
  | [], _ => true
  | _ :: _, [] => false
  | a :: as, b :: bs => a = b && listPre as bs

/-- Boolean contiguous-substring test: does `pat` occur (contiguously) in
`l`?  This is the occurrence notion of `re.search` for a literal pattern. -/
def containsSub (pat : List Char) : List Char → Bool
  | [] => listPre pat []
  | c :: t => listPre pat (c :: t) || containsSub pat t

/-- Generic scanner: try `matchAt` at every position from the left, as
`re.search` does, returning the first success. -/
def scanA (matchAt : List Char → Option α) : List Char → Option α
  | [] => matchAt []
  | c :: t =>
    match matchAt (c :: t) with
    | some v => some v
    | none => scanA matchAt t

/-- Whitespace as `str.split()` (no argument) uses it; the strings involved
are ASCII. -/
def isWs (c : Char) : Bool := c = ' ' || c = '\t' || c = '\n' || c = '\r'

/-- `str.split()` with no argument: split on runs of whitespace, dropping
empty pieces. -/
def splitWs : List Char → List (List Char)
  | [] => []
  | c :: t =>
    if isWs c then splitWs t
    else
      match splitWs t with
      | [] => [[c]]
      | w :: ws =>
        match t with
        | [] => [[c]]
        | d :: _ => if isWs d then [c] :: w :: ws else (c :: w) :: ws

/-- `str.strip()`: drop leading and trailing whitespace. -/
def stripWs (l : List Char) : List Char :=
  ((l.dropWhile isWs).reverse.dropWhile isWs).reverse

/-- Python's `str.strip('"')`: drop all leading and all trailing `"`. -/
def stripQuotes (l : List Char) : List Char :=
  ((l.dropWhile (· = '"')).reverse.dropWhile (· = '"')).reverse

/-- Decimal digit character for `d < 10`. -/
def digitChar (d : Nat) : Char := Char.ofNat (48 + d)

/-- Fuelled decimal rendering of a natural number (`str(n)` for `n ≥ 0`). -/
def natDigitsFuel : Nat → Nat → List Char
  | 0, _ => []
  | f + 1, n =>
    if n < 10 then [digitChar n]
    else natDigitsFuel f (n / 10) ++ [digitChar (n % 10)]

/-- Decimal digits of a natural number, most significant first. -/
def natDigits (n : Nat) : List Char := natDigitsFuel (n + 1) n

/-- Decimal rendering of a Python `int` (`str(i)`). -/
def renderInt (i : Int) : String :=
  if i < 0 then String.mk ('-' :: natDigits i.natAbs)
  else String.mk (natDigits i.natAbs)

/-- Numeric value of a digit string, as `int()` computes it for the
captures of `(\d+)`. -/
def parseDigits (l : List Char) : Nat :=
  l.foldl (fun a c => a * 10 + (c.toNat - 48)) 0

/-- Lookup in a Python `dict` built by successive assignment from an
association list: the *last* binding of a key wins. -/
def dictGet (l : List (String × String)) (k : String) : Option String :=
  match l with
  | [] => none
  | (k', v) :: rest =>
    match dictGet rest k with
    | some v' => some v'
    | none => if k' = k then some v else none

/-- First-binding association lookup (for maps kept unique-keyed, such as
the verifier's `_trusted_agents` registry). -/
def lookupFirst (l : List (String × α)) (k : String) : Option α :=
  match l with
  | [] => none
  | (k', v) :: rest => if k' = k then some v else lookupFirst rest k

/-- Truthiness of an optional string, as Python evaluates
`if not signature_header`. -/
def truthy : Option String → Bool
  | none => false
  | some s => s ≠ ""

/-- Insertion of a key-value pair into a list sorted by key (code-point
order on the key string, as Python string comparison). -/
def insertByKey (p : String × String) : List (String × String) → List (String × String)
  | [] => [p]
  | q :: rest => if p.1 < q.1 then p :: q :: rest else q :: insertByKey p rest

/-- `sorted(additional_headers.items())`: sort the header pairs by key.
Python sorts items lexicographically (key, then value); header names in a
dict are unique, so sorting by key is the same order. -/
def sortedItems : List (String × String) → List (String × String)
  | [] => []
  | p :: rest => insertByKey p (sortedItems rest)

/-- Model of `urllib.parse.urlparse` restricted to the URL shapes the TAP
core handles (`scheme://authority/path?query`, no fragment, no userinfo):
returns `(netloc, path, query)`.  Signer and verifier share this single
function just as they share `urlparse`. -/
def urlparse3 (url : String) : String × String × String :=
  let cs := url.data
  let rec afterScheme : List Char → Option (List Char)
    | [] => none
    | ':' :: '/' :: '/' :: rest => some rest
    | _ :: t => afterScheme t
  match afterScheme cs with
  | none => ("", String.mk (cs.takeWhile (· ≠ '?')),
      String.mk ((cs.dropWhile (· ≠ '?')).drop 1))
  | some rest =>
    let netloc := rest.takeWhile (fun c => c ≠ '/' && c ≠ '?')
    let after := rest.drop netloc.length
    let path := after.takeWhile (· ≠ '?')
    let query := (after.drop path.length).drop 1
    (String.mk netloc, String.mk path, String.mk query)

/-- The `authority` / `path` pair both signer (`signer.py` lines 99-103) and
verifier (`verifier.py` lines 311-315) derive: path falls back to `/` and
carries the query when present. -/
def urlAuthorityPath (url : String) : String × String :=
  let (netloc, path0, query) := urlparse3 url
  let path1 := if path0 = "" then "/" else path0
  let path := if query ≠ "" then path1 ++ "?" ++ query else path1
  (netloc, path)

/-! ## Data model (`src/shared/tap/models.py`) -/

/-- `InteractionType` enumeration. -/
inductive InteractionType where
  | browsing
  | checkout
deriving DecidableEq

/-- Wire label of an interaction type (`InteractionType.value`). -/
def InteractionType.value : InteractionType → String
  | .browsing => "browsing"
  | .checkout => "checkout"

/-- `SignatureAlgorithm` enumeration. -/
inductive SignatureAlgorithm where
  | ed25519
  | rsaPssSha256
deriving DecidableEq

/-- Wire label of an algorithm, as line 216 of `signer.py` renders it. -/
def SignatureAlgorithm.wire : SignatureAlgorithm → String
  | .ed25519 => "ed25519"
  | .rsaPssSha256 => "rsa-pss-sha256"

/-- A private key held behind the duck-typed variable of the Python code;
the tag models the `isinstance(..., Ed25519PrivateKey)` dispatch. -/
inductive PrivKey where
  | ed (k : String)
  | rsa (k : String)
deriving DecidableEq

/-- A public key (the verifier's duck-typed key container). -/
inductive PubKey where
  | ed (k : String)
  | rsa (k : String)
deriving DecidableEq

/-- The error kinds of the specification's §7 table.  The Python code
reports failures through `error_message` strings; each verifier return site
carries exactly one of these kinds (see the doc comment on `verify` for
the message-to-kind correspondence). -/
inductive ErrorKind where
  | malformedHeaders
  | unknownKey
  | algorithmMismatch
  | createdInFuture
  | expired
  | tooOld
  | nonceReplay
  | invalidSignature
  | baseReconstructionFailed
deriving DecidableEq

/-- `VerificationResult` as a sum: the dataclass's `is_valid` flag selects
the shape, and the optional diagnostic fields are kept. -/
inductive VResult where
  | valid (agentId : String) (interaction : InteractionType) (keyid : String)
      (created expires : Int)
  | invalid (kind : ErrorKind) (keyid : Option String)
      (created expires : Option Int)
deriving DecidableEq

/-- Abstract cryptographic and encoding primitives used by the TAP core:
these live in the `cryptography` and `base64` libraries, outside the
repository.  Theorems state the exact contracts they rely on as
hypotheses; `toyCrypto` below is an executable instance for witnesses. -/
structure CryptoPrims where
  signEd : String → String → String
  signRsa : String → String → String
  verifyEd : String → String → String → Bool
  verifyRsa : String → String → String → Bool
  edPub : String → String
  rsaPub : String → String
  sha256b64 : String → String
  b64encode : String → String
  b64decode : String → Option String

/-- `_compute_content_digest` (identical in `signer.py` lines 244-248 and
`verifier.py` lines 350-354): base64 of the SHA-256 of the body. -/
def computeContentDigest (crypto : CryptoPrims) (body : String) : String :=
  crypto.sha256b64 body

/-! ## Signer (`src/shared/tap/signer.py`) -/

/-- Signer configuration (`TAPSigner.__init__`).  The private key is kept
already loaded, as `_load_private_key` produces it. -/
structure SignerCfg where
  keyid : String
  algorithm : SignatureAlgorithm
  privateKey : PrivKey
  validitySeconds : Int
deriving DecidableEq

/-- The covered-component identifiers of `_build_signature_params_line`
(lines 203-211), unquoted: the three derived components, `content-digest`
when a body is present (`has_body = body is not None`), then the lowercased
extra-header names in sorted key order. -/
def coveredComponentNames (hasBody : Bool) (additionalHeaders : List (String × String)) :
    List String :=
  ["@method", "@authority", "@path"]
    ++ (if hasBody then ["content-digest"] else [])
    ++ (sortedItems additionalHeaders).map (fun p => lowerStr p.1)

/-- `_build_signature_params_line` (lines 192-220): the parenthesized
quoted component list followed by the six parameters, in fixed order.
(The Python method also receives `method`, which it never uses.) -/
def buildSignatureParamsLine (keyid : String) (alg : SignatureAlgorithm)
    (hasBody : Bool) (created expires : Int) (nonce : String)
    (interactionType : InteractionType)
    (additionalHeaders : List (String × String)) : String :=
  let componentsStr :=
    String.intercalate " "
      ((coveredComponentNames hasBody additionalHeaders).map (fun n => "\"" ++ n ++ "\""))
  "(" ++ componentsStr ++ ");created=" ++ renderInt created
    ++ ";expires=" ++ renderInt expires
    ++ ";keyid=\"" ++ keyid
    ++ "\";alg=\"" ++ alg.wire
    ++ "\";nonce=\"" ++ nonce
    ++ "\";tag=\"" ++ interactionType.value ++ "\""

/-- The list of lines `_build_signature_base` (lines 148-190) accumulates:
derived components, the content-digest line when the body is truthy
(`if body:` — so an *empty* body contributes no line), one line per sorted
extra header with its lowercased name, then the `@signature-params` line. -/
def signBaseLines (crypto : CryptoPrims) (keyid : String) (alg : SignatureAlgorithm)
    (method authority path : String) (body : Option String)
    (created expires : Int) (nonce : String) (interactionType : InteractionType)
    (additionalHeaders : List (String × String)) : List String :=
  ["\"@method\": " ++ method,
   "\"@authority\": " ++ authority,
   "\"@path\": " ++ path]
    ++ (match body with
        | some b => if b ≠ "" then
            ["\"content-digest\": sha-256=:" ++ computeContentDigest crypto b ++ ":"]
          else []
        | none => [])
    ++ (sortedItems additionalHeaders).map
        (fun p => "\"" ++ lowerStr p.1 ++ "\": " ++ p.2)
    ++ ["\"@signature-params\": "
          ++ buildSignatureParamsLine keyid alg (body ≠ none) created expires nonce
              interactionType additionalHeaders]

/-- `_build_signature_base`: the lines joined by a single `\n`, no trailing
newline. -/
def buildSignatureBase (crypto : CryptoPrims) (keyid : String)
    (alg : SignatureAlgorithm) (method authority path : String)
    (body : Option String) (created expires : Int) (nonce : String)
    (interactionType : InteractionType)
    (additionalHeaders : List (String × String)) : String :=
  String.intercalate "\n"
    (signBaseLines crypto keyid alg method authority path body created expires nonce
      interactionType additionalHeaders)

/-- `_create_signature` (lines 250-265): dispatch on the `isinstance` tag of
the private key. -/
def createSignature (crypto : CryptoPrims) (key : PrivKey) (base : String) : String :=
  match key with
  | .ed k => crypto.signEd k base
  | .rsa k => crypto.signRsa k base

/-- `SignatureComponents` (`models.py` lines 20-36). -/
structure SignatureComponents where
  signature : String
  signatureInput : String
  keyid : String
  created : Int
  expires : Int
  nonce : String
  algorithm : SignatureAlgorithm
deriving DecidableEq

/-- `SignatureComponents.to_headers`. -/
def SignatureComponents.toHeaders (sc : SignatureComponents) : List (String × String) :=
  [("Signature", sc.signature), ("Signature-Input", sc.signatureInput)]

/-- The signature base `TAPSigner.sign` computes (lines 98-121): uppercased
method, authority and path-with-query from the URL, expiry derived from the
validity window. -/
def signatureBaseOf (crypto : CryptoPrims) (cfg : SignerCfg) (method url : String)
    (body : Option String) (interactionType : InteractionType)
    (additionalHeaders : List (String × String)) (created : Int) (nonce : String) :
    String :=
  let ap := urlAuthorityPath url
  buildSignatureBase crypto cfg.keyid cfg.algorithm (upperStr method) ap.1 ap.2 body
    created (created + cfg.validitySeconds) nonce interactionType additionalHeaders

/-- `TAPSigner.sign` (lines 77-146).  The two effects the Python method
performs itself — reading the clock for `created` and drawing a fresh
UUID `nonce` — are passed in explicitly. -/
def sign (crypto : CryptoPrims) (cfg : SignerCfg) (method url : String)
    (body : Option String) (interactionType : InteractionType)
    (additionalHeaders : List (String × String)) (created : Int) (nonce : String) :
    SignatureComponents :=
  let expires := created + cfg.validitySeconds
  let base := signatureBaseOf crypto cfg method url body interactionType
    additionalHeaders created nonce
  let sigB64 := crypto.b64encode (createSignature crypto cfg.privateKey base)
  { signature := "sig1=:" ++ sigB64 ++ ":"
    signatureInput := "sig1=" ++ buildSignatureParamsLine cfg.keyid cfg.algorithm
      (body ≠ none) created expires nonce interactionType additionalHeaders
    keyid := cfg.keyid
    created := created
    expires := expires
    nonce := nonce
    algorithm := cfg.algorithm }

/-! ## Verifier (`src/shared/tap/verifier.py`) -/

/-- One registry entry of `_trusted_agents` (lines 80-84). -/
structure AgentReg where
  publicKey : PubKey
  name : String
  algorithm : SignatureAlgorithm
deriving DecidableEq

/-- Verifier state: configuration, agent registry, and the used-nonce set.
The Python nonce set can contain `None` (when a `Signature-Input` lacked a
nonce parameter), hence `Option String` entries; the list is kept
duplicate-free because `verify` only inserts values it just found absent. -/
structure VerifierState where
  maxClockSkew : Int
  maxSignatureAge : Int
  trustedAgents : List (String × AgentReg)
  usedNonces : List (Option String)
deriving DecidableEq

/-- `TAPVerifier.__init__` defaults: 60 s clock skew, 300 s max age. -/
def initVerifier : VerifierState :=
  { maxClockSkew := 60, maxSignatureAge := 300, trustedAgents := [], usedNonces := [] }

/-- `register_agent` (lines 63-84): store the loaded key under the keyid;
`name or keyid` falls back on a missing *or empty* name.  Re-registration
of a keyid replaces the entry (dict assignment). -/
def registerAgent (st : VerifierState) (keyid : String) (publicKey : PubKey)
    (name : Option String) (algorithm : SignatureAlgorithm) : VerifierState :=
  let displayName :=
    match name with
    | some n => if n ≠ "" then n else keyid
    | none => keyid
  let entry : AgentReg := { publicKey := publicKey, name := displayName, algorithm := algorithm }
  let rec upsert : List (String × AgentReg) → List (String × AgentReg)
    | [] => [(keyid, entry)]
    | (k, a) :: rest => if k = keyid then (k, entry) :: rest else (k, a) :: upsert rest
  { st with trustedAgents := upsert st.trustedAgents }

/-- The parameters `_parse_signature_input` extracts; each regex that fails
to match simply leaves its key out of the dict, hence every field is
optional. -/
structure SigParams where
  keyid : Option String
  created : Option Int
  expires : Option Int
  nonce : Option String
  alg : Option String
  tag : Option String
  components : Option (List String)
deriving DecidableEq

/-- Matcher for `key="([^"]+)"` at one position: the literal `key="`, then a
nonempty run of non-quote characters, then a closing quote. -/
def matchQuotedAt (key : List Char) (l : List Char) : Option (List Char) :=
  let pat := key ++ ['=', '"']
  if listPre pat l then
    let after := l.drop pat.length
    let cap := after.takeWhile (· ≠ '"')
    if cap ≠ [] ∧ (after.drop cap.length).head? = some '"' then some cap else none
  else none

/-- `re.search(key + '="([^"]+)"', s)`: first position where the quoted
pattern matches. -/
def extractQuoted (key : List Char) (s : List Char) : Option String :=
  (scanA (matchQuotedAt key) s).map String.mk

/-- Matcher for `key=(\d+)` at one position: the literal `key=`, then a
maximal nonempty digit run. -/
def matchIntAt (key : List Char) (l : List Char) : Option Int :=
  let pat := key ++ ['=']
  if listPre pat l then
    let after := l.drop pat.length
    let cap := after.takeWhile Char.isDigit
    if cap ≠ [] then some (Int.ofNat (parseDigits cap)) else none
  else none

/-- `int(re.search(key + '=(\d+)', s).group(1))`. -/
def extractInt (key : List Char) (s : List Char) : Option Int :=
  scanA (matchIntAt key) s

/-- Matcher for `\(([^)]+)\)` at one position: an opening parenthesis, a
nonempty run of non-`)` characters, a closing parenthesis. -/
def matchParenAt (l : List Char) : Option (List Char) :=
  match l with
  | '(' :: rest =>
    let cap := rest.takeWhile (· ≠ ')')
    if cap ≠ [] ∧ (rest.drop cap.length).head? = some ')' then some cap else none
  | _ => none

/-- The covered components (lines 292-298): the first parenthesized group,
split on whitespace, each piece stripped of whitespace and quotes. -/
def extractComponents (s : List Char) : Option (List String) :=
  (scanA matchParenAt s).map
    (fun inner => (splitWs inner).map (fun c => String.mk (stripQuotes (stripWs c))))

/-- `_parse_signature_input` (lines 250-300): requires the `sig1=` prefix
(else `ValueError`, reported by `verify` as a malformed header), then runs
the six parameter regexes and the component regex over the remainder. -/
def parseSignatureInput (signatureInput : String) : Option SigParams :=
  let l := signatureInput.data
  if listPre "sig1=".data l then
    let p := l.drop 5
    some
      { keyid := extractQuoted "keyid".data p
        created := extractInt "created".data p
        expires := extractInt "expires".data p
        nonce := extractQuoted "nonce".data p
        alg := extractQuoted "alg".data p
        tag := extractQuoted "tag".data p
        components := extractComponents p }
  else none

/-- The line `_reconstruct_signature_base` (lines 322-336) produces for one
covered component: derived components from the live request, the digest
from the body when it is truthy, and otherwise the named request header's
value with `""` as the default for an *absent* header. -/
def componentLine (crypto : CryptoPrims) (method authority path : String)
    (body : Option String) (headersLower : List (String × String))
    (component : String) : List String :=
  if component = "@method" then ["\"@method\": " ++ upperStr method]
  else if component = "@authority" then ["\"@authority\": " ++ authority]
  else if component = "@path" then ["\"@path\": " ++ path]
  else if component = "content-digest" then
    match body with
    | some b => if b ≠ "" then
        ["\"content-digest\": sha-256=:" ++ computeContentDigest crypto b ++ ":"]
      else []
    | none => []
  else
    ["\"" ++ component ++ "\": " ++ (dictGet headersLower (lowerStr component)).getD ""]

/-- `_reconstruct_signature_base` (lines 302-348): one line per received
covered component in order, then the `@signature-params` line copied
verbatim from the `Signature-Input` header value minus the `sig1=` prefix.
The Python function never raises, so this is total. -/
def reconstructSignatureBase (crypto : CryptoPrims) (method url : String)
    (body : Option String) (headersLower : List (String × String))
    (params : SigParams) : String :=
  let ap := urlAuthorityPath url
  let components := params.components.getD []
  let lines := components.foldr
    (fun c acc => componentLine crypto method ap.1 ap.2 body headersLower c ++ acc) []
  let signatureInput := (dictGet headersLower "signature-input").getD ""
  let paramsLine :=
    if listPre "sig1=".data signatureInput.data then
      String.mk (signatureInput.data.drop 5)
    else signatureInput
  String.intercalate "\n" (lines ++ ["\"@signature-params\": " ++ paramsLine])

/-- Matcher for `sig1=:([^:]+):` at one position. -/
def matchSigAt (l : List Char) : Option (List Char) :=
  let pat := "sig1=:".data
  if listPre pat l then
    let after := l.drop pat.length
    let cap := after.takeWhile (· ≠ ':')
    if cap ≠ [] ∧ (after.drop cap.length).head? = some ':' then some cap else none
  else none

/-- `_extract_signature` (lines 356-363): find the `sig1=:...:` payload and
base64-decode it; a failed match or a decode error both surface as the
caught `ValueError` of lines 202-209. -/
def extractSignature (crypto : CryptoPrims) (signatureHeader : String) : Option String :=
  match scanA matchSigAt signatureHeader.data with
  | none => none
  | some cap => crypto.b64decode (String.mk cap)

/-- `_verify_signature` (lines 365-384): dispatch on the `isinstance` tag
of the registered public key; `True` models a verification that does not
raise `InvalidSignature`. -/
def verifySignature (crypto : CryptoPrims) (key : PubKey) (signature message : String) :
    Bool :=
  match key with
  | .ed k => crypto.verifyEd k signature message
  | .rsa k => crypto.verifyRsa k signature message

/-- The nonce commit of `verify` (lines 227-231): add the nonce, then clear
the *entire* set whenever it exceeds 10000 entries. -/
def commitNonce (used : List (Option String)) (nonce : Option String) :
    List (Option String) :=
  let s := nonce :: used
  if s.length > 10000 then [] else s

/-- `TAPVerifier.verify` (lines 97-248), in the source's check order.  The
result pairs the `VerificationResult` with the post-call verifier state;
`none` models the uncaught `TypeError` Python raises when a missing
`created` or `expires` parameter (a `None`) is compared with an integer
(lines 151 / 159).  Error-message-to-kind correspondence of the return
sites: "Missing Signature or Signature-Input headers", "Failed to parse
Signature-Input" and "Failed to extract signature" are `malformedHeaders`;
"Unknown agent keyid" is `unknownKey`; "Signature created in the future"
is `createdInFuture`; "Signature has expired" is `expired`; "Signature too
old" is `tooOld`; "Nonce already used (replay attack)" is `nonceReplay`;
"Invalid signature" is `invalidSignature`.  The "Failed to reconstruct
signature base" site (`baseReconstructionFailed`) is unreachable because
`_reconstruct_signature_base` never raises. -/
def verify (crypto : CryptoPrims) (st : VerifierState) (method url : String)
    (headers : List (String × String)) (body : Option String) (now : Int) :
    Option (VResult × VerifierState) :=
  let headersLower := headers.map (fun p => (lowerStr p.1, p.2))
  let sigH := dictGet headersLower "signature"
  let sigIn := dictGet headersLower "signature-input"
  if ¬ (truthy sigH ∧ truthy sigIn) then
    some (.invalid .malformedHeaders none none none, st)
  else
    match parseSignatureInput (sigIn.getD "") with
    | none => some (.invalid .malformedHeaders none none none, st)
    | some params =>
      match params.keyid with
      | none => some (.invalid .unknownKey none none none, st)
      | some keyid =>
        match lookupFirst st.trustedAgents keyid with
        | none => some (.invalid .unknownKey (some keyid) none none, st)
        | some agent =>
          match params.created with
          | none => none
          | some created =>
            if created > now + st.maxClockSkew then
              some (.invalid .createdInFuture (some keyid) (some created) none, st)
            else
              match params.expires with
              | none => none
              | some expires =>
                if expires < now then
                  some (.invalid .expired (some keyid) (some created) (some expires), st)
                else if now - created > st.maxSignatureAge then
                  some (.invalid .tooOld (some keyid) (some created) none, st)
                else if st.usedNonces.contains params.nonce then
                  some (.invalid .nonceReplay (some keyid) none none, st)
                else
                  let base := reconstructSignatureBase crypto method url body
                    headersLower params
                  match extractSignature crypto (sigH.getD "") with
                  | none => some (.invalid .malformedHeaders (some keyid) none none, st)
                  | some sigBytes =>
                    if verifySignature crypto agent.publicKey sigBytes base then
                      let st' := { st with
                        usedNonces := commitNonce st.usedNonces params.nonce }
                      let tag := params.tag.getD "browsing"
                      some (.valid agent.name
                        (if tag = "checkout" then .checkout else .browsing)
                        keyid created expires, st')
                    else
                      some (.invalid .invalidSignature (some keyid) (some created)
                        (some expires), st)

/-! ## Verification middleware
(`src/mock-merchant/app/security/tap_middleware.py`) -/

/-- What `TAPVerificationMiddleware.dispatch` does with a request: pass it
through as unsigned (`tap_verified = False`), pass it through with the
attached verification result, or reject it with HTTP 401. -/
inductive DispatchOutcome where
  | passUnsigned
  | passVerified (agentId : String) (interaction : InteractionType) (keyid : String)
  | reject401
deriving DecidableEq

/-- `TAPVerificationMiddleware.dispatch` (lines 38-84).  `rawBody` is the
byte body `await request.body()` would return (empty string for an absent
body); the verifier is only consulted when *both* signature headers are
present and nonempty, and the body is forwarded only for POST/PUT/PATCH
and only when nonempty.  `none` propagates an uncaught exception from
`verify`. -/
def dispatch (crypto : CryptoPrims) (st : VerifierState) (method url : String)
    (headers : List (String × String)) (rawBody : String) (now : Int) :
    Option (DispatchOutcome × VerifierState) :=
  let headersLower := headers.map (fun p => (lowerStr p.1, p.2))
  let signature := dictGet headersLower "signature"
  let signatureInput := dictGet headersLower "signature-input"
  if truthy signature ∧ truthy signatureInput then
    let body : Option String :=
      if (method = "POST" ∨ method = "PUT" ∨ method = "PATCH") ∧ rawBody ≠ "" then
        some rawBody
      else none
    match verify crypto st method url headers body now with
    | none => none
    | some (.valid agentId interaction keyid _ _, st') =>
      some (.passVerified agentId interaction keyid, st')
    | some (.invalid _ _ _ _, st') => some (.reject401, st')
  else
    some (.passUnsigned, st)

/-! ## Executable toy crypto instance

Used only to build concrete witnesses and counterexamples: signing tags the
message with the key, verification checks that tag, `b64encode` escapes the
colon (so that the encoded payload is colon-free, as base64 output is), and
`sha256b64` is an injective executable stand-in. -/

/-- Colon-free escaping standing in for base64: `%` escapes itself, `:`
becomes `%c`. -/
def escChar (c : Char) : List Char :=
  if c = ':' then ['%', 'c'] else if c = '%' then ['%', 'p'] else [c]

/-- Toy `b64encode`. -/
def toyEncode (s : String) : String := String.mk (s.data.foldr (fun c acc => escChar c ++ acc) [])

/-- Toy `b64decode`, inverse of `toyEncode`. -/
def toyDecodeList : List Char → Option (List Char)
  | [] => some []
  | '%' :: 'c' :: rest => (toyDecodeList rest).map (':' :: ·)
  | '%' :: 'p' :: rest => (toyDecodeList rest).map ('%' :: ·)
  | '%' :: _ => none
  | c :: rest => (toyDecodeList rest).map (c :: ·)

/-- Toy `b64decode` on strings. -/
def toyDecode (s : String) : Option String := (toyDecodeList s.data).map String.mk

/-- The executable `CryptoPrims` instance for witnesses. -/
def toyCrypto : CryptoPrims :=
  { signEd := fun k m => "ED/" ++ k ++ "/" ++ m
    signRsa := fun k m => "RS/" ++ k ++ "/" ++ m
    verifyEd := fun k sig m => sig = "ED/" ++ k ++ "/" ++ m
    verifyRsa := fun k sig m => sig = "RS/" ++ k ++ "/" ++ m
    edPub := fun k => k
    rsaPub := fun k => k
    sha256b64 := fun s => "H" ++ toyEncode s
    b64encode := toyEncode
    b64decode := toyDecode }

/-! ## Claim C9: determinism and the concrete scenario-1 signature base -/

/-- The signer of the spec's concrete scenario 1: `keyid="urn:agent:a"`,
Ed25519, 300-second validity window. -/
def scenario1Signer : SignerCfg :=
  { keyid := "urn:agent:a", algorithm := .ed25519, privateKey := .ed "sk-a"
    validitySeconds := 300 }

/-- C9: the signature base is a deterministic function of the signing
inputs — `signatureBaseOf` is a pure function of exactly `(method, url,
body, extra headers, created, expires, nonce, keyid, alg, tag)` — and for
`method="GET"`, `url="https://merchant.example/api/products?q=headphones"`,
no body, Ed25519, `created=1700000000`, `expires=1700000300`,
`nonce="n1"`, `keyid="urn:agent:a"`, tag `browsing`, it equals exactly the
four expected lines joined by single `\n` with no trailing newline. -/
theorem c9_concrete_signature_base :
    signatureBaseOf toyCrypto scenario1Signer "GET"
        "https://merchant.example/api/products?q=headphones" none .browsing []
        1700000000 "n1"
      = "\"@method\": GET\n\"@authority\": merchant.example\n\"@path\": /api/products?q=headphones\n\"@signature-params\": (\"@method\" \"@authority\" \"@path\");created=1700000000;expires=1700000300;keyid=\"urn:agent:a\";alg=\"ed25519\";nonce=\"n1\";tag=\"browsing\"" := by
  decide

/-! ## Claim C10: no minimum covered-component set is imposed -/

/-- The parameter portion of a `Signature-Input` that has no parenthesized
component list at all (so the parsed `covered_components` is absent and
`verify` reconstructs nothing but the `@signature-params` line). -/
def c10Params : String :=
  "created=1700000000;expires=1700000300;keyid=\"k\";alg=\"ed25519\";nonce=\"n\";tag=\"browsing\""

/-- The only line of the corresponding signature base. -/
def c10Base : String := "\"@signature-params\": " ++ c10Params

/-- Request headers carrying a (toy) signature over that one-line base. -/
def c10Headers : List (String × String) :=
  [("Signature", "sig1=:" ++ toyCrypto.b64encode (toyCrypto.signEd "sk" c10Base) ++ ":"),
   ("Signature-Input", "sig1=" ++ c10Params)]

/-- A verifier that trusts keyid `k`. -/
def c10Registry : VerifierState :=
  registerAgent initVerifier "k" (.ed (toyCrypto.edPub "sk")) none .ed25519

/-- C10: `verify` imposes no minimum covered-component set.  The
`Signature-Input` above yields no parsed components, the reconstructed base
is the `@signature-params` line alone, and a signature that validly covers
just that base is accepted as `Valid` for *every* method, URL and body —
none of them is authenticated. -/
theorem c10_no_minimum_covered_set :
    (parseSignatureInput ("sig1=" ++ c10Params)).map SigParams.components = some none
    ∧ ∀ method url body,
        verify toyCrypto c10Registry method url c10Headers body 1700000100
          = some (.valid "k" .browsing "k" 1700000000 1700000300,
              { c10Registry with usedNonces := [some "n"] }) := by
  exact ⟨by decide, fun method url body => rfl⟩

/-! ## Claim C4: a missing parameter does not yield `MalformedHeaders` -/

/-- A parseable `Signature-Input` whose `created` parameter is missing. -/
def c4SigInput : String :=
  "sig1=(\"@method\");keyid=\"k\";expires=1700000300;nonce=\"x\";alg=\"ed25519\";tag=\"browsing\""

/-- Request headers carrying that `Signature-Input`. -/
def c4Headers : List (String × String) :=
  [("Signature", "sig1=:AA:"), ("Signature-Input", c4SigInput)]

/-- A verifier that trusts keyid `k` (so the failure is not `UnknownKey`). -/
def c4Registry : VerifierState := registerAgent initVerifier "k" (.ed "pk") none .ed25519

/-- C4 (code bug): on a `Signature-Input` whose `created` parameter cannot
be extracted, `_parse_signature_input` succeeds with `created` simply
absent, and `verify` then compares `None` with an integer — an uncaught
`TypeError` (the `none` result of the model) escapes out of band instead
of an `Invalid` result of kind `MalformedHeaders`. -/
theorem c4_missing_created_uncaught_exception :
    parseSignatureInput c4SigInput ≠ none
    ∧ (parseSignatureInput c4SigInput).map SigParams.created = some none
    ∧ verify toyCrypto c4Registry "GET" "https://h/x" c4Headers none 1700000100 = none := by
  exact ⟨by decide, by decide, by decide⟩

/-! ## Claim C2: accepted nonces are evicted while still valid -/

/-- A store of exactly 10000 entries makes the next commit clear
everything. -/
theorem commitNonce_full (used : List (Option String)) (n : Option String)
    (h : used.length = 10000) : commitNonce used n = [] := by
  simp [commitNonce, h]

/-- C2 (code bug): once the used-nonce set holds 10000 entries, the commit
performed by the next successful verification clears the *whole* set —
every previously accepted nonce is evicted no matter how far its `expires`
still lies in the future — so a replay of any of those nonces is no longer
detected.  Stated both for the commit itself and for any `verify` call
that returns `Valid` from such a state. -/
theorem c2_nonce_store_cleared (used : List (Option String)) (n : Option String)
    (h : used.length = 10000) :
    commitNonce used n = []
    ∧ ∀ crypto st method url headers body now r st',
        st.usedNonces = used →
        verify crypto st method url headers body now = some (r, st') →
        (∃ a i k c e, r = VResult.valid a i k c e) →
        st'.usedNonces = [] := by
  refine ⟨commitNonce_full used n h, ?_⟩
  intro crypto st method url headers body now r st' hst hv hval
  obtain ⟨a, i, k, c, e, rfl⟩ := hval
  have h' : st.usedNonces.length = 10000 := by rw [hst]; exact h
  unfold verify at hv
  dsimp only at hv
  repeat' split at hv
  all_goals
    first
      | exact Option.noConfusion hv
      | (injection hv with h1
         injection h1 with hr hs
         first
           | exact VResult.noConfusion hr
           | (subst hs
              exact commitNonce_full _ _ h'))

/-- Witness for C2: a concrete full store is wiped by the next commit. -/
theorem c2_nonce_store_cleared_witness :
    commitNonce (List.replicate 10000 (some "a")) (some "b") = [] :=
  (c2_nonce_store_cleared (List.replicate 10000 (some "a")) (some "b")
    (by rw [List.length_replicate])).1

/-! ## Claim C1: no algorithm-match check before (or after) crypto -/

/-- Rewrite every registration's recorded `expected_algorithm`, leaving
keys and names untouched. -/
def setAlgs (g : String → SignatureAlgorithm) (st : VerifierState) : VerifierState :=
  { st with trustedAgents :=
      st.trustedAgents.map (fun p => (p.1, { p.2 with algorithm := g p.1 })) }

/-- Registry lookup after `setAlgs` only rewrites the found entry's
algorithm field. -/
theorem lookupFirst_setAlgs (g : String → SignatureAlgorithm)
    (l : List (String × AgentReg)) (k : String) :
    lookupFirst (l.map (fun p => (p.1, { p.2 with algorithm := g p.1 }))) k
      = (lookupFirst l k).map (fun a => { a with algorithm := g k }) := by
  induction l with
  | nil => rfl
  | cons p rest ih =>
    by_cases hk : p.1 = k
    · simp [lookupFirst, hk]
    · simp [lookupFirst, hk, ih]

/-- C1 (corrected): `verify` performs no algorithm-match check at all.  The
parsed `alg` parameter and the registration's `expected_algorithm` are
never compared: the verification outcome and the resulting nonce store are
unchanged when every registration's algorithm is rewritten arbitrarily,
and no outcome ever has kind `AlgorithmMismatch`. -/
theorem c1_no_algorithm_check (crypto : CryptoPrims) (st : VerifierState)
    (g : String → SignatureAlgorithm) (method url : String)
    (headers : List (String × String)) (body : Option String) (now : Int) :
    (verify crypto (setAlgs g st) method url headers body now).map
        (fun x => (x.1, x.2.usedNonces))
      = (verify crypto st method url headers body now).map
        (fun x => (x.1, x.2.usedNonces))
    ∧ ∀ r st', verify crypto st method url headers body now = some (r, st') →
        ∀ kk c e, r ≠ VResult.invalid .algorithmMismatch kk c e := by
  constructor
  · unfold verify
    dsimp only [setAlgs]
    split
    · rfl
    · cases hp : parseSignatureInput
          ((dictGet (headers.map fun p => (lowerStr p.1, p.2)) "signature-input").getD "") with
      | none => rfl
      | some params =>
        dsimp only
        cases hk : params.keyid with
        | none => rfl
        | some keyid =>
          dsimp only
          rw [lookupFirst_setAlgs]
          cases lookupFirst st.trustedAgents keyid with
          | none => rfl
          | some agent =>
            dsimp only [Option.map]
            cases hc : params.created with
            | none => rfl
            | some created =>
              dsimp only
              by_cases h1 : created > now + st.maxClockSkew
              · rw [if_pos h1, if_pos h1]
              · rw [if_neg h1, if_neg h1]
                cases he : params.expires with
                | none => rfl
                | some expires =>
                  dsimp only
                  by_cases h2 : expires < now
                  · rw [if_pos h2, if_pos h2]
                  · rw [if_neg h2, if_neg h2]
                    by_cases h3 : now - created > st.maxSignatureAge
                    · rw [if_pos h3, if_pos h3]
                    · rw [if_neg h3, if_neg h3]
                      by_cases h4 : st.usedNonces.contains params.nonce = true
                      · rw [if_pos h4, if_pos h4]
                      · rw [if_neg h4, if_neg h4]
                        cases hx : extractSignature crypto
                            ((dictGet (headers.map fun p => (lowerStr p.1, p.2))
                              "signature").getD "") with
                        | none => rfl
                        | some sigBytes =>
                          dsimp only
                          by_cases h5 : verifySignature crypto agent.publicKey sigBytes
                              (reconstructSignatureBase crypto method url body
                                (headers.map fun p => (lowerStr p.1, p.2)) params) = true
                          · rw [if_pos h5, if_pos h5]
                          · rw [if_neg h5, if_neg h5]
  · intro r st' hv kk c e
    unfold verify at hv
    dsimp only at hv
    repeat' split at hv
    all_goals
      first
        | exact Option.noConfusion hv
        | (injection hv with h1
           injection h1 with hr hs
           subst hr
           simp)

/-- Witness for C1's theorem: at a concrete accepted request, the outcome
is invariant under rewriting the registered algorithm and is not an
`AlgorithmMismatch`. -/
theorem c1_no_algorithm_check_witness :
    (verify toyCrypto (setAlgs (fun _ => .rsaPssSha256) c10Registry) "GET" "https://h/p"
        c10Headers none 1700000100).map (fun x => (x.1, x.2.usedNonces))
      = (verify toyCrypto c10Registry "GET" "https://h/p" c10Headers none
          1700000100).map (fun x => (x.1, x.2.usedNonces)) :=
  (c1_no_algorithm_check toyCrypto c10Registry (fun _ => .rsaPssSha256) "GET"
    "https://h/p" c10Headers none 1700000100).1

/-- The scenario of the claim's second source: the keyid's registration
declares `RsaPssSha256` while the key itself (and the signature, and the
`alg` parameter) are Ed25519. -/
def c1MismatchRegistry : VerifierState :=
  registerAgent initVerifier "urn:agent:a" (.ed (toyCrypto.edPub "sk-a")) (some "A")
    .rsaPssSha256

/-- Counterexample to C1: a request whose parsed `alg` (`ed25519`) differs
from the registration's expected algorithm (`RsaPssSha256`) is *not*
rejected with `AlgorithmMismatch` — cryptographic verification runs and
the request is accepted as `Valid`. -/
theorem c1_counterexample :
    (parseSignatureInput
        ((sign toyCrypto scenario1Signer "GET" "https://h/p" none .browsing []
          1700000000 "n1").signatureInput)).map SigParams.alg
      = some (some "ed25519")
    ∧ verify toyCrypto c1MismatchRegistry "GET" "https://h/p"
        ((sign toyCrypto scenario1Signer "GET" "https://h/p" none .browsing []
          1700000000 "n1").toHeaders) none 1700000100
      = some (.valid "A" .browsing "urn:agent:a" 1700000000 1700000300,
          { c1MismatchRegistry with usedNonces := [some "n1"] }) := by
  exact ⟨by decide, by decide⟩

/-! ## Claim C5: middleware behaviour on partially signed requests -/

/-- C5 (corrected): the middleware consults the verifier only when *both*
`Signature` and `Signature-Input` are present and nonempty (the code's
`if signature and signature_input`); it then rejects with HTTP 401 on an
`Invalid` result and passes through with the attached result on `Valid`.
A request carrying only one of the two headers — or empty values — is
passed through as unsigned, not rejected. -/
theorem c5_dispatch_characterization (crypto : CryptoPrims) (st : VerifierState)
    (method url : String) (headers : List (String × String)) (rawBody : String)
    (now : Int) :
    (¬ (truthy (dictGet (headers.map fun p => (lowerStr p.1, p.2)) "signature")
          ∧ truthy (dictGet (headers.map fun p => (lowerStr p.1, p.2)) "signature-input")) →
        dispatch crypto st method url headers rawBody now = some (.passUnsigned, st))
    ∧ ((truthy (dictGet (headers.map fun p => (lowerStr p.1, p.2)) "signature")
          ∧ truthy (dictGet (headers.map fun p => (lowerStr p.1, p.2)) "signature-input")) →
        ∀ bodyArg, bodyArg = (if (method = "POST" ∨ method = "PUT" ∨ method = "PATCH")
              ∧ rawBody ≠ "" then some rawBody else none) →
        (∀ kind kk c e st',
            verify crypto st method url headers bodyArg now
              = some (.invalid kind kk c e, st') →
            dispatch crypto st method url headers rawBody now = some (.reject401, st'))
        ∧ (∀ a i k c e st',
            verify crypto st method url headers bodyArg now
              = some (.valid a i k c e, st') →
            dispatch crypto st method url headers rawBody now
              = some (.passVerified a i k, st'))) := by
  constructor
  · intro hno
    unfold dispatch
    rw [if_neg hno]
  · intro hyes bodyArg hb
    constructor
    · intro kind kk c e st' hv
      unfold dispatch
      rw [if_pos hyes, ← hb]
      dsimp only
      rw [hv]
    · intro a i k c e st' hv
      unfold dispatch
      rw [if_pos hyes, ← hb]
      dsimp only
      rw [hv]

/-- Witness for C5's theorem: with only a `Signature` header present the
request passes through unsigned. -/
theorem c5_dispatch_characterization_witness :
    dispatch toyCrypto initVerifier "GET" "https://h/q"
        [("Signature", "sig1=:AA:")] "" 1700000000
      = some (.passUnsigned, initVerifier) :=
  (c5_dispatch_characterization toyCrypto initVerifier "GET" "https://h/q"
    [("Signature", "sig1=:AA:")] "" 1700000000).1 (by decide)

/-- Counterexample to C5: a request on which the `Signature` header is
present (so "at least one of the two headers" is present) but
`Signature-Input` is missing is passed through as unsigned — the verifier
is never run and no HTTP 401 rejection happens, although a run of the
verifier on it would return `Invalid`. -/
theorem c5_counterexample :
    dispatch toyCrypto c4Registry "GET" "https://h/x"
        [("Signature", "sig1=:AA:")] "" 1700000100
      = some (.passUnsigned, c4Registry)
    ∧ (verify toyCrypto c4Registry "GET" "https://h/x"
        [("Signature", "sig1=:AA:")] none 1700000100).map
          (fun x => x.1)
      = some (.invalid .malformedHeaders none none none) := by
  exact ⟨by decide, by decide⟩

/-! ## Claim C6: replay detection is *not* scoped per `(keyid, nonce)` -/

/-- Signer for agent A of the two-agent replay scenario. -/
def c6SignerA : SignerCfg :=
  { keyid := "urn:a", algorithm := .ed25519, privateKey := .ed "ska"
    validitySeconds := 300 }

/-- Signer for agent B of the two-agent replay scenario. -/
def c6SignerB : SignerCfg :=
  { keyid := "urn:b", algorithm := .ed25519, privateKey := .ed "skb"
    validitySeconds := 300 }

/-- A verifier trusting both agents. -/
def c6Registry : VerifierState :=
  registerAgent
    (registerAgent initVerifier "urn:a" (.ed (toyCrypto.edPub "ska")) none .ed25519)
    "urn:b" (.ed (toyCrypto.edPub "skb")) none .ed25519

/-- Counterexample to C6: the same nonce `n` presented under two
*different* registered keyids, each request otherwise valid and fresh:
the first verification returns `Valid`, but the second returns
`NonceReplay` — it does not return `Valid` as the claim states. -/
theorem c6_counterexample :
    verify toyCrypto c6Registry "GET" "https://h/x"
        ((sign toyCrypto c6SignerA "GET" "https://h/x" none .browsing []
          1700000000 "n").toHeaders) none 1700000100
      = some (.valid "urn:a" .browsing "urn:a" 1700000000 1700000300,
          { c6Registry with usedNonces := [some "n"] })
    ∧ verify toyCrypto { c6Registry with usedNonces := [some "n"] } "GET" "https://h/x"
        ((sign toyCrypto c6SignerB "GET" "https://h/x" none .browsing []
          1700000000 "n").toHeaders) none 1700000100
      = some (.invalid .nonceReplay (some "urn:b") none none,
          { c6Registry with usedNonces := [some "n"] }) := by
  exact ⟨by decide, by decide⟩

/-- C6 (corrected): replay detection is keyed on the nonce string alone —
the store records bare nonces, never the presenting keyid.  Any
verification that reaches the nonce check (headers present, parse
successful, keyid registered, timestamps in range) with a nonce already in
the store returns `NonceReplay`, no matter which keyid presents it. -/
theorem c6_replay_keyed_on_nonce_alone (crypto : CryptoPrims) (st : VerifierState)
    (method url : String) (headers : List (String × String)) (body : Option String)
    (now : Int) (params : SigParams) (keyid : String) (agent : AgentReg)
    (created expires : Int)
    (hhdr : truthy (dictGet (headers.map fun p => (lowerStr p.1, p.2)) "signature")
      ∧ truthy (dictGet (headers.map fun p => (lowerStr p.1, p.2)) "signature-input"))
    (hparse : parseSignatureInput
        ((dictGet (headers.map fun p => (lowerStr p.1, p.2)) "signature-input").getD "")
      = some params)
    (hkid : params.keyid = some keyid)
    (hreg : lookupFirst st.trustedAgents keyid = some agent)
    (hc : params.created = some created)
    (hfresh : ¬ created > now + st.maxClockSkew)
    (he : params.expires = some expires)
    (hexp : ¬ expires < now)
    (hage : ¬ now - created > st.maxSignatureAge)
    (hreplay : st.usedNonces.contains params.nonce = true) :
    verify crypto st method url headers body now
      = some (.invalid .nonceReplay (some keyid) none none, st) := by
  unfold verify
  rw [if_neg (by simpa using hhdr), hparse]
  dsimp only
  rw [hkid]
  dsimp only
  rw [hreg]
  dsimp only
  rw [hc]
  dsimp only
  rw [if_neg hfresh, he]
  dsimp only
  rw [if_neg hexp, if_neg hage, if_pos hreplay]

/-- Witness for C6's theorem: the second call of the two-keyid scenario. -/
theorem c6_replay_keyed_on_nonce_alone_witness :
    verify toyCrypto { c6Registry with usedNonces := [some "n"] } "GET" "https://h/x"
        ((sign toyCrypto c6SignerB "GET" "https://h/x" none .browsing []
          1700000000 "n").toHeaders) none 1700000100
      = some (.invalid .nonceReplay (some "urn:b") none none,
          { c6Registry with usedNonces := [some "n"] }) :=
  c6_replay_keyed_on_nonce_alone toyCrypto
    { c6Registry with usedNonces := [some "n"] } "GET" "https://h/x"
    ((sign toyCrypto c6SignerB "GET" "https://h/x" none .browsing []
      1700000000 "n").toHeaders) none 1700000100
    { keyid := some "urn:b", created := some 1700000000, expires := some 1700000300
      nonce := some "n", alg := some "ed25519", tag := some "browsing"
      components := some ["@method", "@authority", "@path"] }
    "urn:b"
    { publicKey := .ed "skb", name := "urn:b", algorithm := .ed25519 }
    1700000000 1700000300
    (by decide) (by decide) (by decide) (by decide) (by decide) (by decide)
    (by decide) (by decide) (by decide) (by decide)

/-! ## Claim C8: a missing covered header does not abort reconstruction -/

/-- Counterexample to C8: a request whose covered components include the
header `x-custom`, which is *absent* from the request headers.  Instead of
`BaseReconstructionFailed`, the verifier substitutes the empty string,
proceeds to cryptographic verification, and returns `InvalidSignature`. -/
theorem c8_counterexample :
    verify toyCrypto c1MismatchRegistry "GET" "https://h/p"
        ((sign toyCrypto scenario1Signer "GET" "https://h/p" none .browsing
          [("x-custom", "v")] 1700000000 "n1").toHeaders) none 1700000100
      = some (.invalid .invalidSignature (some "urn:agent:a") (some 1700000000)
          (some 1700000300), c1MismatchRegistry) := by
  decide

/-- C8 (corrected): for a covered component that is a real header name not
present on the request, `_reconstruct_signature_base` substitutes the empty
string (its line is the bare `"name": `), reconstruction never fails, and
`verify` proceeds to the cryptographic check, whose outcome (`Valid` or
`InvalidSignature`) is the verdict — `BaseReconstructionFailed` is never
produced. -/
theorem c8_missing_header_proceeds_to_crypto (crypto : CryptoPrims)
    (st : VerifierState) (method url : String) (headers : List (String × String))
    (body : Option String) (now : Int) (params : SigParams) (keyid : String)
    (agent : AgentReg) (created expires : Int) (sigBytes : String) (c : String)
    (hhdr : truthy (dictGet (headers.map fun p => (lowerStr p.1, p.2)) "signature")
      ∧ truthy (dictGet (headers.map fun p => (lowerStr p.1, p.2)) "signature-input"))
    (hparse : parseSignatureInput
        ((dictGet (headers.map fun p => (lowerStr p.1, p.2)) "signature-input").getD "")
      = some params)
    (hkid : params.keyid = some keyid)
    (hreg : lookupFirst st.trustedAgents keyid = some agent)
    (hc : params.created = some created)
    (hfresh : ¬ created > now + st.maxClockSkew)
    (he : params.expires = some expires)
    (hexp : ¬ expires < now)
    (hage : ¬ now - created > st.maxSignatureAge)
    (hreplay : ¬ st.usedNonces.contains params.nonce = true)
    (hext : extractSignature crypto
        ((dictGet (headers.map fun p => (lowerStr p.1, p.2)) "signature").getD "")
      = some sigBytes)
    (hmem : c ∈ params.components.getD [])
    (hnotd : c ≠ "@method" ∧ c ≠ "@authority" ∧ c ≠ "@path" ∧ c ≠ "content-digest")
    (hmiss : dictGet (headers.map fun p => (lowerStr p.1, p.2)) (lowerStr c) = none) :
    componentLine crypto method (urlAuthorityPath url).1 (urlAuthorityPath url).2
        body (headers.map fun p => (lowerStr p.1, p.2)) c
      = ["\"" ++ c ++ "\": "]
    ∧ verify crypto st method url headers body now
      = (if verifySignature crypto agent.publicKey sigBytes
            (reconstructSignatureBase crypto method url body
              (headers.map fun p => (lowerStr p.1, p.2)) params) = true then
          some (.valid agent.name
            (if params.tag.getD "browsing" = "checkout" then .checkout else .browsing)
            keyid created expires,
            { st with usedNonces := commitNonce st.usedNonces params.nonce })
        else
          some (.invalid .invalidSignature (some keyid) (some created) (some expires),
            st)) := by
  constructor
  · obtain ⟨h1, h2, h3, h4⟩ := hnotd
    simp only [componentLine, if_neg h1, if_neg h2, if_neg h3, if_neg h4, hmiss,
      Option.getD_none]
    rw [String.append_empty]
  · unfold verify
    rw [if_neg (by simpa using hhdr), hparse]
    dsimp only
    rw [hkid]
    dsimp only
    rw [hreg]
    dsimp only
    rw [hc]
    dsimp only
    rw [if_neg hfresh, he]
    dsimp only
    rw [if_neg hexp, if_neg hage, if_neg hreplay, hext]

/-- Witness for C8's theorem: the missing `x-custom` header of the
counterexample scenario contributes the empty-valued line. -/
theorem c8_missing_header_proceeds_to_crypto_witness :
    componentLine toyCrypto "GET" (urlAuthorityPath "https://h/p").1
        (urlAuthorityPath "https://h/p").2 none
        (((sign toyCrypto scenario1Signer "GET" "https://h/p" none .browsing
          [("x-custom", "v")] 1700000000 "n1").toHeaders).map
          fun p => (lowerStr p.1, p.2)) "x-custom"
      = ["\"x-custom\": "] :=
  (c8_missing_header_proceeds_to_crypto toyCrypto c1MismatchRegistry "GET"
    "https://h/p"
    ((sign toyCrypto scenario1Signer "GET" "https://h/p" none .browsing
      [("x-custom", "v")] 1700000000 "n1").toHeaders)
    none 1700000100
    { keyid := some "urn:agent:a", created := some 1700000000
      expires := some 1700000300, nonce := some "n1", alg := some "ed25519"
      tag := some "browsing"
      components := some ["@method", "@authority", "@path", "x-custom"] }
    "urn:agent:a"
    { publicKey := .ed "sk-a", name := "A", algorithm := .rsaPssSha256 }
    1700000000 1700000300
    (createSignature toyCrypto scenario1Signer.privateKey
      (signatureBaseOf toyCrypto scenario1Signer "GET" "https://h/p" none .browsing
        [("x-custom", "v")] 1700000000 "n1"))
    "x-custom"
    (by decide) (by decide) (by decide) (by decide) (by decide) (by decide)
    (by decide) (by decide) (by decide) (by decide) (by decide) (by decide)
    (by decide) (by decide)).1

/-! ## Claim C7: `content-digest` listing versus base lines -/

/-- A prefix is recognized at the front of its own extension. -/
theorem listPre_append_self (p q : List Char) : listPre p (p ++ q) = true := by
  induction p with
  | nil => rfl
  | cons a as ih => simp [listPre, ih]

/-- A recognized prefix stays recognized when the list is extended. -/
theorem listPre_append_of (p l q : List Char) (h : listPre p l = true) :
    listPre p (l ++ q) = true := by
  induction p generalizing l with
  | nil => rfl
  | cons a as ih =>
    cases l with
    | nil => exact absurd h (by simp [listPre])
    | cons b bs =>
      simp only [listPre, Bool.and_eq_true, decide_eq_true_eq] at h
      simp [listPre, h.1, ih bs h.2]

/-- Counterexample to C7: for a *present but empty* request body
(`body=""`), `content-digest` is listed among the covered components
(`has_body = body is not None` is true) although the body is not
"present (non-empty)", and that listed identifier contributes *no* line to
the signature base (`if body:` is false) — four identifiers, but only
three component lines. -/
theorem c7_counterexample :
    coveredComponentNames (decide ((some "" : Option String) ≠ none)) []
      = ["@method", "@authority", "@path", "content-digest"]
    ∧ signBaseLines toyCrypto "k" .ed25519 "GET" "h" "/" (some "") 0 300 "n"
        .browsing []
      = ["\"@method\": GET", "\"@authority\": h", "\"@path\": /",
         "\"@signature-params\": (\"@method\" \"@authority\" \"@path\" \"content-digest\");created=0;expires=300;keyid=\"k\";alg=\"ed25519\";nonce=\"n\";tag=\"browsing\""] := by
  exact ⟨by decide, by decide⟩

/-- C7 (corrected): `content-digest` is a covered component iff the body
argument is *provided* (`body is not None`) — which coincides with
"present (non-empty)" only when the provided body is nonempty — and, as
long as the body is not the provided-but-empty string (and no extra header
is itself named `content-digest`), every identifier listed in
`covered_components` contributes exactly one line to the signature base,
in the listed order: each base line starts with its identifier's
`"name": ` rendering, and the final line is the `@signature-params`
line. -/
theorem c7_components_one_line_each (crypto : CryptoPrims) (keyid : String)
    (alg : SignatureAlgorithm) (method authority path : String)
    (body : Option String) (created expires : Int) (nonce : String)
    (interactionType : InteractionType) (extras : List (String × String))
    (hcd : "content-digest" ∉ (sortedItems extras).map (fun p => lowerStr p.1))
    (hb : body ≠ some "") :
    ("content-digest" ∈ coveredComponentNames body.isSome extras ↔ body ≠ none)
    ∧ List.Forall₂
        (fun (n line : String) => listPre ("\"" ++ n ++ "\": ").data line.data = true)
        (coveredComponentNames body.isSome extras)
        ((signBaseLines crypto keyid alg method authority path body created expires
          nonce interactionType extras).dropLast)
    ∧ (signBaseLines crypto keyid alg method authority path body created expires
        nonce interactionType extras).getLast?
      = some ("\"@signature-params\": "
          ++ buildSignatureParamsLine keyid alg body.isSome created expires nonce
              interactionType extras) := by
  have hextras : List.Forall₂
      (fun (n line : String) => listPre ("\"" ++ n ++ "\": ").data line.data = true)
      ((sortedItems extras).map (fun p => lowerStr p.1))
      ((sortedItems extras).map
        (fun p => "\"" ++ lowerStr p.1 ++ "\": " ++ p.2)) := by
    induction sortedItems extras with
    | nil => exact List.Forall₂.nil
    | cons p rest ih =>
      refine List.Forall₂.cons ?_ ih
      have hd : ("\"" ++ lowerStr p.1 ++ "\": " ++ p.2).data
          = ("\"" ++ lowerStr p.1 ++ "\": ").data ++ p.2.data := by
        simp [String.data_append, List.append_assoc]
      rw [hd]
      exact listPre_append_self _ _
  cases body with
  | none =>
    refine ⟨by simp [coveredComponentNames, hcd], ?_, ?_⟩
    · dsimp only [signBaseLines, coveredComponentNames]
      rw [List.dropLast_concat]
      simp only [List.append_nil, List.cons_append, List.nil_append]
      refine List.Forall₂.cons ?_ (List.Forall₂.cons ?_ (List.Forall₂.cons ?_
        hextras))
      all_goals
        simp only [String.data_append, List.append_assoc]
        exact listPre_append_of _ _ _ (by decide)
    · dsimp only [signBaseLines]
      rw [List.getLast?_concat]
      rfl
  | some b =>
    have hbne : b ≠ "" := fun h => hb (by rw [h])
    refine ⟨by simp [coveredComponentNames, hcd], ?_, ?_⟩
    · dsimp only [signBaseLines, coveredComponentNames]
      rw [if_pos hbne, List.dropLast_concat]
      simp only [List.append_nil, List.cons_append, List.nil_append,
        List.singleton_append, Option.isSome_some, if_true]
      refine List.Forall₂.cons ?_ (List.Forall₂.cons ?_ (List.Forall₂.cons ?_
        (List.Forall₂.cons ?_ hextras)))
      · simp only [String.data_append, List.append_assoc]
        exact listPre_append_of _ _ _ (by decide)
      · simp only [String.data_append, List.append_assoc]
        exact listPre_append_of _ _ _ (by decide)
      · simp only [String.data_append, List.append_assoc]
        exact listPre_append_of _ _ _ (by decide)
      · simp only [String.data_append, List.append_assoc]
        exact listPre_append_of _ _ _ (by decide)
    · dsimp only [signBaseLines]
      rw [if_pos hbne, List.getLast?_concat]
      rfl

/-- Witness for C7's theorem: with no body and one extra header,
`content-digest` is not listed. -/
theorem c7_components_one_line_each_witness :
    ("content-digest" ∈ coveredComponentNames (none : Option String).isSome
        [("X-A", "1")]
      ↔ (none : Option String) ≠ none) :=
  (c7_components_one_line_each toyCrypto "k" .ed25519 "GET" "h" "/" none 0 300 "n"
    .browsing [("X-A", "1")] (by decide) (by decide)).1

/-! ## Claim C3: the sign/verify round trip

The round trip as claimed fails on one family of inputs (an extra header
literally named `content-digest`); on all other well-formed inputs it
holds.  Establishing the positive part requires proving that the
verifier's regex-based parser recovers exactly what the signer emitted,
which is what the following infrastructure does. -/

/-- A verifier matching `scenario1Signer` with the *same* expected
algorithm, as the claim requires. -/
def c3Registry : VerifierState :=
  registerAgent initVerifier "urn:agent:a" (.ed (toyCrypto.edPub "sk-a")) (some "A")
    .ed25519

/-- Counterexample to C3: an extra covered header literally named
`content-digest` (allowed by the claim's quantification over extra
headers), with no body.  The signer covers the header's *value*, but the
verifier's reconstruction treats the `content-digest` component via the
body (which is absent, producing no line), so the bases differ and the
otherwise well-formed round trip ends in `InvalidSignature`, not
`Valid`. -/
theorem c3_counterexample :
    verify toyCrypto c3Registry "GET" "https://h/p"
        ((sign toyCrypto scenario1Signer "GET" "https://h/p" none .browsing
          [("content-digest", "sha-256=:AAA:")] 1700000000 "n1").toHeaders
          ++ [("content-digest", "sha-256=:AAA:")])
        none 1700000100
      = some (.invalid .invalidSignature (some "urn:agent:a") (some 1700000000)
          (some 1700000300), c3Registry) := by
  decide

/-! ### Scanning and substring lemmas -/

/-- `listPre` is reflexive-on-extensions both ways: a list begins itself. -/
theorem listPre_refl (p : List Char) : listPre p p = true := by
  induction p with
  | nil => rfl
  | cons a as ih => simp [listPre, ih]

/-- Suffix test on character lists, by reversing. -/
def listSuf (t l : List Char) : Bool := listPre t.reverse l.reverse

/-- If `p` begins `t ++ S` and fits inside `t`, it begins `t`. -/
theorem listPre_of_append_le (p t S : List Char) (h : listPre p (t ++ S) = true)
    (hl : p.length ≤ t.length) : listPre p t = true := by
  induction p generalizing t with
  | nil => rfl
  | cons a as ih =>
    cases t with
    | nil => simp at hl
    | cons b bs =>
      simp only [List.cons_append, listPre, Bool.and_eq_true, decide_eq_true_eq] at h ⊢
      exact ⟨h.1, ih bs h.2 (by simpa using hl)⟩

/-- If `p` begins `t ++ S` and `t` is at most as long, `t` begins `p`. -/
theorem listPre_rev_of_append_le (p t S : List Char) (h : listPre p (t ++ S) = true)
    (hl : t.length ≤ p.length) : listPre t p = true := by
  induction t generalizing p with
  | nil => rfl
  | cons b bs ih =>
    cases p with
    | nil => simp at hl
    | cons a as =>
      simp only [List.cons_append, listPre, Bool.and_eq_true, decide_eq_true_eq] at h ⊢
      exact ⟨h.1.symm, ih as h.2 (by simpa using hl)⟩

/-- Every character of a recognized prefix occurs in the larger list. -/
theorem mem_of_listPre (p l : List Char) (h : listPre p l = true) :
    ∀ c ∈ p, c ∈ l := by
  induction p generalizing l with
  | nil => intro c hc; cases hc
  | cons a as ih =>
    cases l with
    | nil => exact absurd h (by simp [listPre])
    | cons b bs =>
      simp only [listPre, Bool.and_eq_true, decide_eq_true_eq] at h
      intro c hc
      rcases List.mem_cons.mp hc with hc | hc
      · exact List.mem_cons.mpr (Or.inl (hc.trans h.1))
      · exact List.mem_cons.mpr (Or.inr (ih bs h.2 c hc))

/-- A recognized prefix is an actual list prefix. -/
theorem exists_append_of_listPre (p l : List Char) (h : listPre p l = true) :
    ∃ r, l = p ++ r := by
  induction p generalizing l with
  | nil => exact ⟨l, rfl⟩
  | cons a as ih =>
    cases l with
    | nil => exact absurd h (by simp [listPre])
    | cons b bs =>
      simp only [listPre, Bool.and_eq_true, decide_eq_true_eq] at h
      obtain ⟨r, hr⟩ := ih bs h.2
      exact ⟨r, by rw [← h.1, hr]; rfl⟩

/-- A prefix occurrence is a substring occurrence. -/
theorem containsSub_of_listPre (p l : List Char) (h : listPre p l = true) :
    containsSub p l = true := by
  cases l with
  | nil => simpa [containsSub] using h
  | cons c t => simp [containsSub, h]

/-- Substring occurrence survives prepending. -/
theorem containsSub_append_left (p u l : List Char)
    (h : containsSub p l = true) : containsSub p (u ++ l) = true := by
  induction u with
  | nil => exact h
  | cons a as ih => simp [containsSub, ih]

/-- A substring occurrence decomposes the list. -/
theorem exists_of_containsSub (p l : List Char) (h : containsSub p l = true) :
    ∃ u r, l = u ++ p ++ r := by
  induction l with
  | nil =>
    refine ⟨[], [], ?_⟩
    simp only [containsSub] at h
    obtain ⟨r, hr⟩ := exists_append_of_listPre p [] h
    cases p with
    | nil => rfl
    | cons a as => exact absurd hr (by simp)
  | cons c t ih =>
    simp only [containsSub, Bool.or_eq_true] at h
    rcases h with h | h
    · obtain ⟨r, hr⟩ := exists_append_of_listPre p (c :: t) h
      exact ⟨[], r, by simpa using hr⟩
    · obtain ⟨u, r, hr⟩ := ih h
      exact ⟨c :: u, r, by simp [hr]⟩

/-- Characters of an occurring substring occur in the list. -/
theorem mem_of_containsSub (p l : List Char) (h : containsSub p l = true) :
    ∀ c ∈ p, c ∈ l := by
  obtain ⟨u, r, hr⟩ := exists_of_containsSub p l h
  intro c hc
  subst hr
  simp [hc]

/-- A pattern with a character the list lacks cannot occur in it. -/
theorem containsSub_eq_false_of_lacks (p l : List Char) (c : Char) (hc : c ∈ p)
    (hl : ∀ x ∈ l, x ≠ c) : containsSub p l = false := by
  by_contra h
  have h' : containsSub p l = true := by
    cases hch : containsSub p l
    · exact absurd hch h
    · rfl
  exact hl c (mem_of_containsSub p l h' c hc) rfl

/-- Every list is a suffix of itself. -/
theorem listSuf_refl (t : List Char) : listSuf t t = true := listPre_refl _

/-- Being a suffix survives prepending an element to the larger list. -/
theorem listSuf_cons (t X : List Char) (c : Char) (h : listSuf t X = true) :
    listSuf t (c :: X) = true := by
  unfold listSuf at h ⊢
  rw [List.reverse_cons]
  exact listPre_append_of _ _ _ h

/-- A suffix is an actual tail of the list. -/
theorem exists_of_listSuf (t X : List Char) (h : listSuf t X = true) :
    ∃ u, X = u ++ t := by
  obtain ⟨r, hr⟩ := exists_append_of_listPre _ _ h
  refine ⟨r.reverse, ?_⟩
  have := congrArg List.reverse hr
  simpa using this

/-- An occurring pattern also occurs in any list of which its host is a
suffix. -/
theorem containsSub_of_listSuf (p t X : List Char) (h : containsSub p t = true)
    (hs : listSuf t X = true) : containsSub p X = true := by
  obtain ⟨u, hu⟩ := exists_of_listSuf t X hs
  rw [hu]
  exact containsSub_append_left p u t h

/-- A nonempty suffix ends where the list ends. -/
theorem getLast?_of_listSuf (t X : List Char) (h : listSuf t X = true)
    (hne : t ≠ []) : X.getLast? = t.getLast? := by
  obtain ⟨u, hu⟩ := exists_of_listSuf t X h
  subst hu
  exact List.getLast?_append_of_ne_nil u hne

/-- The last element of a list is one of its elements. -/
theorem mem_of_getLast? (l : List Char) (c : Char) (h : l.getLast? = some c) :
    c ∈ l := by
  induction l with
  | nil => simp at h
  | cons a as ih =>
    cases as with
    | nil => simp_all
    | cons b bs =>
      rw [List.getLast?_cons_cons] at h
      exact List.mem_cons.mpr (Or.inr (ih h))

/-- A recognized prefix determines the `take` of the larger list. -/
theorem take_eq_of_listPre (t p : List Char) (h : listPre t p = true) :
    p.take t.length = t := by
  induction t generalizing p with
  | nil => rfl
  | cons a as ih =>
    cases p with
    | nil => exact absurd h (by simp [listPre])
    | cons b bs =>
      simp only [listPre, Bool.and_eq_true, decide_eq_true_eq] at h
      simp [List.take, ih bs h.2, h.1.symm]

/-- Dropping the left part of a recognized append prefix leaves a
recognized prefix of the right part. -/
theorem listPre_drop_append (p A B : List Char) (h : listPre p (A ++ B) = true)
    (hl : A.length ≤ p.length) : listPre (p.drop A.length) B = true := by
  induction A generalizing p with
  | nil => simpa using h
  | cons a as ih =>
    cases p with
    | nil => simp at hl
    | cons b bs =>
      simp only [List.cons_append, listPre, Bool.and_eq_true, decide_eq_true_eq] at h
      exact ih bs h.2 (by simpa using hl)

/-- Composition principle: a pattern occurs in neither part of an append
and no straddling split exists, so it does not occur in the append. -/
theorem containsSub_append_eq_false (pat X Y : List Char)
    (hX : containsSub pat X = false) (hY : containsSub pat Y = false)
    (hstr : ∀ k, 0 < k → k < pat.length → listSuf (pat.take k) X = true →
      listPre (pat.drop k) Y = false) :
    containsSub pat (X ++ Y) = false := by
  induction X with
  | nil => simpa using hY
  | cons c X' ih =>
    have hX' : listPre pat (c :: X') = false ∧ containsSub pat X' = false := by
      simpa [containsSub, Bool.or_eq_false_iff] using hX
    have htail : containsSub pat (X' ++ Y) = false := by
      refine ih hX'.2 ?_
      intro k hk1 hk2 hs
      exact hstr k hk1 hk2 (listSuf_cons _ _ _ hs)
    have hhead : listPre pat ((c :: X') ++ Y) = false := by
      by_contra hcon
      have hp : listPre pat ((c :: X') ++ Y) = true := by
        cases hh : listPre pat ((c :: X') ++ Y)
        · exact absurd hh hcon
        · rfl
      by_cases hle : pat.length ≤ (c :: X').length
      · have hcs := containsSub_of_listPre pat (c :: X')
          (listPre_of_append_le pat (c :: X') Y hp hle)
        have hrfl : containsSub pat (c :: X')
            = (listPre pat (c :: X') || containsSub pat X') := rfl
        rw [hrfl, hX'.1, hX'.2] at hcs
        simp at hcs
      · push_neg at hle
        have h1 : listPre (c :: X') pat = true :=
          listPre_rev_of_append_le pat (c :: X') Y hp (Nat.le_of_lt hle)
        have h2 : pat.take (c :: X').length = c :: X' := take_eq_of_listPre _ _ h1
        have h3 : listPre (pat.drop (c :: X').length) Y = true :=
          listPre_drop_append pat (c :: X') Y hp (Nat.le_of_lt hle)
        have h4 := hstr (c :: X').length (by simp) hle
          (by rw [h2]; exact listSuf_refl _)
        rw [h3] at h4
        exact Bool.noConfusion h4
    have hrfl2 : containsSub pat ((c :: X') ++ Y)
        = (listPre pat ((c :: X') ++ Y) || containsSub pat (X' ++ Y)) := rfl
    rw [hrfl2, hhead, htail]
    rfl

/-- No nonzero `take` of a pattern lacking the list's last character is a
suffix of that list. -/
theorem not_listSuf_take_of_getLast (pat X : List Char) (sc : Char)
    (hl : X.getLast? = some sc) (hsc : sc ∉ pat) (hpne : pat ≠ []) :
    ∀ k, 0 < k → listSuf (pat.take k) X = true → False := by
  intro k hk hs
  have htne : pat.take k ≠ [] := by
    cases pat with
    | nil => exact absurd rfl hpne
    | cons a as =>
      cases k with
      | zero => exact absurd hk (by simp)
      | succ k' => simp [List.take]
  have hlast : (pat.take k).getLast? = some sc := by
    rw [← getLast?_of_listSuf _ _ hs htne]
    exact hl
  exact hsc (List.take_subset k pat (mem_of_getLast? _ _ hlast))

/-- Chunk composition: both chunks clean and the left chunk ends in a
character the pattern lacks (`;` throughout the signature-input), so the
pattern does not occur in the concatenation. -/
theorem containsSub_chunk_append (pat X Y : List Char)
    (hX : containsSub pat X = false) (hY : containsSub pat Y = false)
    (hl : X.getLast? = some ';') (hsc : ';' ∉ pat) (hpne : pat ≠ []) :
    containsSub pat (X ++ Y) = false := by
  refine containsSub_append_eq_false pat X Y hX hY ?_
  intro k hk1 hk2 hs
  exact absurd hs (fun hs => not_listSuf_take_of_getLast pat X ';' hl hsc hpne k hk1 hs)

/-- Scanning skips a region where the matcher fails at every position. -/
theorem scanA_append_of_none (m : List Char → Option α) (X S : List Char)
    (h : ∀ t, t ≠ [] → listSuf t X = true → m (t ++ S) = none) :
    scanA m (X ++ S) = scanA m S := by
  induction X with
  | nil => rfl
  | cons c X' ih =>
    have h0 : m ((c :: X') ++ S) = none := h (c :: X') (by simp) (listSuf_refl _)
    have hstep : scanA m ((c :: X') ++ S)
        = match m ((c :: X') ++ S) with
          | some v => some v
          | none => scanA m (X' ++ S) := rfl
    rw [hstep, h0]
    exact ih (fun t ht hs => h t ht (listSuf_cons _ _ _ hs))

/-- A successful match at the current position wins the scan. -/
theorem scanA_hit (m : List Char → Option α) (l : List Char) (v : α)
    (h : m l = some v) : scanA m l = some v := by
  cases l with
  | nil => simpa [scanA] using h
  | cons c t => simp [scanA, h]

/-- In a region that does not contain the pattern and ends in `;` (which
the pattern lacks), the pattern begins no tail of the region extended by
anything. -/
theorem listPre_append_false_of_suffix (pat X S : List Char)
    (hX : containsSub pat X = false) (hl : X.getLast? = some ';')
    (hsc : ';' ∉ pat) :
    ∀ t, t ≠ [] → listSuf t X = true → listPre pat (t ++ S) = false := by
  intro t ht hs
  by_contra hcon
  have hp : listPre pat (t ++ S) = true := by
    cases hh : listPre pat (t ++ S)
    · exact absurd hh hcon
    · rfl
  by_cases hle : pat.length ≤ t.length
  · have h1 : containsSub pat t :=
      containsSub_of_listPre pat t (listPre_of_append_le pat t S hp hle)
    have h2 := containsSub_of_listSuf pat t X h1 hs
    rw [hX] at h2
    exact Bool.noConfusion h2
  · push_neg at hle
    have h1 : listPre t pat = true :=
      listPre_rev_of_append_le pat t S hp (Nat.le_of_lt hle)
    have h2 : t.getLast? = some ';' := by
      rw [← getLast?_of_listSuf t X hs ht]
      exact hl
    exact hsc (mem_of_listPre t pat h1 ';' (mem_of_getLast? t ';' h2))

/-- A failed pattern guard makes the quoted matcher fail. -/
theorem matchQuotedAt_none (key l : List Char)
    (h : listPre (key ++ ['=', '"']) l = false) : matchQuotedAt key l = none := by
  simp [matchQuotedAt, h]

/-- A failed pattern guard makes the integer matcher fail. -/
theorem matchIntAt_none (key l : List Char)
    (h : listPre (key ++ ['=']) l = false) : matchIntAt key l = none := by
  simp [matchIntAt, h]

/-- The quoted-parameter scanner skips a clean region ending in `;`. -/
theorem scan_quoted_skip (key X S : List Char)
    (hX : containsSub (key ++ ['=', '"']) X = false) (hl : X.getLast? = some ';')
    (hsc : ';' ∉ key ++ ['=', '"']) :
    scanA (matchQuotedAt key) (X ++ S) = scanA (matchQuotedAt key) S := by
  refine scanA_append_of_none _ X S ?_
  intro t ht hs
  exact matchQuotedAt_none key (t ++ S)
    (listPre_append_false_of_suffix _ X S hX hl hsc t ht hs)

/-- The integer-parameter scanner skips a clean region ending in `;`. -/
theorem scan_int_skip (key X S : List Char)
    (hX : containsSub (key ++ ['=']) X = false) (hl : X.getLast? = some ';')
    (hsc : ';' ∉ key ++ ['=']) :
    scanA (matchIntAt key) (X ++ S) = scanA (matchIntAt key) S := by
  refine scanA_append_of_none _ X S ?_
  intro t ht hs
  exact matchIntAt_none key (t ++ S)
    (listPre_append_false_of_suffix _ X S hX hl hsc t ht hs)

/-- `takeWhile` captures exactly an all-satisfying run ended by a
failing element. -/
theorem takeWhile_append_stop (p : Char → Bool) (v : List Char) (x : Char)
    (B : List Char) (hv : ∀ c ∈ v, p c = true) (hx : p x = false) :
    (v ++ x :: B).takeWhile p = v := by
  induction v with
  | nil => simp [List.takeWhile, hx]
  | cons a as ih =>
    have ha : p a = true := hv a (by simp)
    simp only [List.cons_append, List.takeWhile, ha]
    exact congrArg (List.cons a) (ih (fun c hc => hv c (by simp [hc])))

/-- The quoted matcher succeeds at the genuine parameter position. -/
theorem matchQuotedAt_hit (key v B : List Char) (hv : v ≠ [])
    (hq : ∀ c ∈ v, c ≠ '"') :
    matchQuotedAt key ((key ++ ['=', '"']) ++ (v ++ '"' :: B)) = some v := by
  unfold matchQuotedAt
  rw [if_pos (listPre_append_self _ _)]
  dsimp only
  rw [List.drop_left]
  have hcap : (v ++ '"' :: B).takeWhile (fun x => decide (x ≠ '"')) = v :=
    takeWhile_append_stop _ v '"' B (fun c hc => by simp [hq c hc]) (by simp)
  rw [hcap, if_pos ⟨hv, by rw [List.drop_left]; rfl⟩]

/-- The integer matcher succeeds at the genuine parameter position. -/
theorem matchIntAt_hit (key D : List Char) (c₀ : Char) (B : List Char)
    (hD : D ≠ []) (hd : ∀ c ∈ D, c.isDigit = true) (hc : c₀.isDigit = false) :
    matchIntAt key ((key ++ ['=']) ++ (D ++ c₀ :: B))
      = some (Int.ofNat (parseDigits D)) := by
  unfold matchIntAt
  rw [if_pos (listPre_append_self _ _)]
  dsimp only
  rw [List.drop_left]
  have hcap : (D ++ c₀ :: B).takeWhile Char.isDigit = D :=
    takeWhile_append_stop _ D c₀ B hd hc
  rw [hcap, if_pos hD]

/-- The component-list matcher succeeds on a parenthesized group whose
interior has no closing parenthesis. -/
theorem matchParenAt_hit (inner B : List Char) (hi : inner ≠ [])
    (hp : ∀ c ∈ inner, c ≠ ')') :
    matchParenAt ('(' :: (inner ++ ')' :: B)) = some inner := by
  have hcap : (inner ++ ')' :: B).takeWhile (fun x => decide (x ≠ ')')) = inner :=
    takeWhile_append_stop _ inner ')' B (fun c hc => by simp [hp c hc]) (by simp)
  have hstep : matchParenAt ('(' :: (inner ++ ')' :: B))
      = (if List.takeWhile (fun x => decide (x ≠ ')')) (inner ++ ')' :: B) ≠ []
            ∧ (List.drop
                (List.takeWhile (fun x => decide (x ≠ ')')) (inner ++ ')' :: B)).length
                (inner ++ ')' :: B)).head?
              = some ')'
         then some (List.takeWhile (fun x => decide (x ≠ ')')) (inner ++ ')' :: B))
         else none) := rfl
  rw [hstep, hcap, if_pos ⟨hi, by rw [List.drop_left]; rfl⟩]

/-! ### Decimal rendering -/

/-- Digit characters are digits. -/
theorem digitChar_isDigit (d : Nat) (h : d < 10) : (digitChar d).isDigit = true := by
  interval_cases d <;> decide

/-- Code point of a digit character. -/
theorem digitChar_toNat (d : Nat) (h : d < 10) : (digitChar d).toNat = 48 + d := by
  interval_cases d <;> decide

/-- A digit differs from every non-digit character. -/
theorem ne_of_isDigit (c : Char) (h : c.isDigit = true) (x : Char)
    (hx : x.isDigit = false) : c ≠ x := by
  intro he
  subst he
  rw [h] at hx
  exact Bool.noConfusion hx

/-- `parseDigits` over a one-longer digit string. -/
theorem parseDigits_concat (A : List Char) (c : Char) :
    parseDigits (A ++ [c]) = parseDigits A * 10 + (c.toNat - 48) := by
  unfold parseDigits
  rw [List.foldl_append]
  rfl

/-- The fuelled renderer, run with enough fuel, produces a nonempty digit
string that parses back to its input. -/
theorem natDigitsFuel_spec : ∀ f n, n ≤ f →
    natDigitsFuel (f + 1) n ≠ []
    ∧ (∀ c ∈ natDigitsFuel (f + 1) n, c.isDigit = true)
    ∧ parseDigits (natDigitsFuel (f + 1) n) = n := by
  intro f
  induction f with
  | zero =>
    intro n hn
    interval_cases n
    refine ⟨by decide, by decide, by decide⟩
  | succ f ih =>
    intro n hn
    have hstep : natDigitsFuel (f + 1 + 1) n
        = if n < 10 then [digitChar n]
          else natDigitsFuel (f + 1) (n / 10) ++ [digitChar (n % 10)] := rfl
    by_cases h10 : n < 10
    · rw [hstep, if_pos h10]
      refine ⟨by simp, ?_, ?_⟩
      · intro c hc
        rw [List.mem_singleton.mp hc]
        exact digitChar_isDigit n h10
      · show parseDigits ([] ++ [digitChar n]) = n
        rw [parseDigits_concat, digitChar_toNat n h10]
        simp [parseDigits]
    · rw [hstep, if_neg h10]
      push_neg at h10
      have hdiv : n / 10 ≤ f := by
        have h1 : n / 10 < n := Nat.div_lt_self (by omega) (by omega)
        omega
      obtain ⟨ihne, ihdig, ihval⟩ := ih (n / 10) hdiv
      have hmod : n % 10 < 10 := Nat.mod_lt n (by omega)
      refine ⟨by simp, ?_, ?_⟩
      · intro c hc
        rcases List.mem_append.mp hc with hc | hc
        · exact ihdig c hc
        · rw [List.mem_singleton.mp hc]
          exact digitChar_isDigit _ hmod
      · rw [parseDigits_concat, ihval, digitChar_toNat _ hmod]
        omega

/-- `natDigits` is nonempty, consists of digits, and parses back. -/
theorem natDigits_spec (n : Nat) :
    natDigits n ≠ []
    ∧ (∀ c ∈ natDigits n, c.isDigit = true)
    ∧ parseDigits (natDigits n) = n :=
  natDigitsFuel_spec n n (Nat.le_refl n)

/-- Rendering a nonnegative integer produces its digits. -/
theorem renderInt_data (i : Int) (h : 0 ≤ i) :
    (renderInt i).data = natDigits i.natAbs := by
  unfold renderInt
  rw [if_neg (by omega)]

/-! ### Chunk-level pattern-absence lemmas -/

/-- Characters of a suffix occur in the list. -/
theorem mem_of_listSuf (t X : List Char) (h : listSuf t X = true) :
    ∀ c ∈ t, c ∈ X := by
  obtain ⟨u, hu⟩ := exists_of_listSuf t X h
  intro c hc
  subst hu
  simp [hc]

/-- The head survives a positive `take`. -/
theorem head?_take_pos (l : List Char) (k : Nat) (hk : 0 < k) :
    (l.take k).head? = l.head? := by
  cases l with
  | nil => simp
  | cons a as =>
    cases k with
    | zero => exact absurd hk (by simp)
    | succ k' => simp [List.take]

/-- The head is a member. -/
theorem mem_of_head? (l : List Char) (c : Char) (h : l.head? = some c) : c ∈ l := by
  cases l with
  | nil => simp at h
  | cons a as =>
    simp only [List.head?_cons, Option.some.injEq] at h
    exact List.mem_cons.mpr (Or.inl h.symm)

/-- Appending something ending in `;` ends in `;`. -/
theorem getLast?_chunk (X Y : List Char) (hY : Y.getLast? = some ';')
    (hYne : Y ≠ []) : (X ++ Y).getLast? = some ';' := by
  rw [List.getLast?_append_of_ne_nil X hYne]
  exact hY

/-- A quoted-parameter pattern does not occur in a *different* quoted
parameter's chunk `KW ++ V ++ '";'` (with `KW` the other parameter's
literal `name="` and `V` its quote- and equals-free value). -/
theorem containsSub_quoted_chunk_eq_false (pat KW V : List Char)
    (h1 : containsSub pat KW = false)
    (h2 : ∀ c ∈ V, c ≠ '"' ∧ c ≠ '=')
    (h3 : '=' ∈ pat)
    (h4 : ∀ k, k < pat.length → 0 < k → listSuf (pat.take k) KW = false)
    (h5 : ∀ k, k < pat.length → 0 < k →
      '=' ∈ pat.take k ∨ listPre (pat.drop k) ['"', ';'] = false)
    (h6 : containsSub pat ['"', ';'] = false) :
    containsSub pat (KW ++ (V ++ ['"', ';'])) = false := by
  refine containsSub_append_eq_false pat KW _ h1 ?_ ?_
  · refine containsSub_append_eq_false pat V _ ?_ h6 ?_
    · exact containsSub_eq_false_of_lacks pat V '=' h3 (fun x hx => (h2 x hx).2)
    · intro k hk1 hk2 hsuf
      rcases h5 k hk2 hk1 with he | hp
      · exfalso
        have : '=' ∈ V := mem_of_listSuf _ V hsuf '=' he
        exact (h2 '=' this).2 rfl
      · exact hp
  · intro k hk1 hk2 hsuf
    rw [h4 k hk2 hk1] at hsuf
    exact Bool.noConfusion hsuf

/-- A parameter pattern whose head is not a digit and which carries a
distinctive non-digit character does not occur in an integer parameter's
chunk `KW ++ digits ++ ';'`. -/
theorem containsSub_int_chunk_eq_false (pat KW D : List Char) (d : Char)
    (h1 : containsSub pat KW = false)
    (hd1 : d ∈ pat) (hd2 : d.isDigit = false)
    (hD : ∀ c ∈ D, c.isDigit = true)
    (h4 : ∀ k, k < pat.length → 0 < k → listSuf (pat.take k) KW = false)
    (hh : ∀ c, pat.head? = some c → c.isDigit = false)
    (h7 : containsSub pat [';'] = false) :
    containsSub pat (KW ++ (D ++ [';'])) = false := by
  refine containsSub_append_eq_false pat KW _ h1 ?_ ?_
  · refine containsSub_append_eq_false pat D _ ?_ h7 ?_
    · exact containsSub_eq_false_of_lacks pat D d hd1
        (fun x hx => ne_of_isDigit x (hD x hx) d hd2)
    · intro k hk1 hk2 hsuf
      exfalso
      have hpne : pat ≠ [] := List.ne_nil_of_mem hd1
      obtain ⟨c0, hc0⟩ : ∃ c0, pat.head? = some c0 := by
        cases pat with
        | nil => exact absurd rfl hpne
        | cons a as => exact ⟨a, rfl⟩
      have hmem : c0 ∈ pat.take k := by
        refine mem_of_head? _ _ ?_
        rw [head?_take_pos pat k hk1]
        exact hc0
      have hinD : c0 ∈ D := mem_of_listSuf _ D hsuf c0 hmem
      have := hD c0 hinD
      rw [hh c0 hc0] at this
      exact Bool.noConfusion this
  · intro k hk1 hk2 hsuf
    rw [h4 k hk2 hk1] at hsuf
    exact Bool.noConfusion hsuf

/-! ### Joining with spaces and splitting back -/

/-- The tail of a space-join: a space before each further token. -/
def sepTail : List (List Char) → List Char
  | [] => []
  | b :: bs => ' ' :: (b ++ sepTail bs)

/-- Character-level space-join of tokens, the shape `" ".join` emits. -/
def joinSpaceData : List (List Char) → List Char
  | [] => []
  | a :: as => a ++ sepTail as

/-- The accumulator-passing `String.intercalate.go`, at the data level. -/
theorem intercalate_go_data (s : String) (l : List String) : ∀ acc : String,
    (String.intercalate.go acc s l).data
      = acc.data ++ (l.map (fun a => s.data ++ a.data)).flatten := by
  induction l with
  | nil => intro acc; simp [String.intercalate.go]
  | cons a as ih =>
    intro acc
    show (String.intercalate.go (acc ++ s ++ a) s as).data = _
    rw [ih (acc ++ s ++ a)]
    simp [String.data_append, List.append_assoc]

/-- `String.intercalate " "` produces exactly the space-join shape. -/
theorem intercalate_space_data (l : List String) :
    (String.intercalate " " l).data = joinSpaceData (l.map String.data) := by
  cases l with
  | nil => rfl
  | cons a as =>
    show (String.intercalate.go a " " as).data = _
    rw [intercalate_go_data " " as a]
    show a.data ++ _ = a.data ++ sepTail (as.map String.data)
    congr 1
    induction as with
    | nil => rfl
    | cons b bs ih =>
      show (" ".data ++ b.data) ++ (bs.map (fun x => " ".data ++ x.data)).flatten
          = ' ' :: (b.data ++ sepTail (bs.map String.data))
      rw [List.append_assoc, ih]
      rfl

/-- One whitespace-free word followed by a space splits off cleanly. -/
theorem splitWs_word (w r : List Char) (hw : ∀ c ∈ w, isWs c = false)
    (hne : w ≠ []) : splitWs (w ++ ' ' :: r) = w :: splitWs r := by
  induction w with
  | nil => exact absurd rfl hne
  | cons c w' ih =>
    cases w' with
    | nil =>
      have hc : isWs c = false := hw c (by simp)
      have hsp : splitWs (' ' :: r) = splitWs r := by
        rw [show splitWs (' ' :: r) = if isWs ' ' then splitWs r
            else match splitWs r with
                 | [] => [[' ']]
                 | w :: ws =>
                   match r with
                   | [] => [[' ']]
                   | d :: _ => if isWs d then [' '] :: w :: ws else (' ' :: w) :: ws
          from rfl]
        rw [if_pos (by decide)]
      have e1 : splitWs (c :: ' ' :: r)
          = if isWs c then splitWs (' ' :: r)
            else match splitWs (' ' :: r) with
                 | [] => [[c]]
                 | w :: ws => if isWs ' ' then [c] :: w :: ws else (c :: w) :: ws :=
        rfl
      show splitWs (c :: ' ' :: r) = [c] :: splitWs r
      rw [e1, if_neg (by rw [hc]; exact Bool.noConfusion), hsp]
      cases splitWs r with
      | nil => rfl
      | cons w ws =>
        show (if isWs ' ' = true then [c] :: w :: ws else (c :: w) :: ws)
          = [c] :: w :: ws
        rw [if_pos (by decide)]
    | cons c2 w'' =>
      have hc : isWs c = false := hw c (by simp)
      have hc2 : isWs c2 = false := hw c2 (by simp)
      have ih' := ih (fun x hx => hw x (by simp [List.mem_cons] at hx ⊢; tauto))
        (by simp)
      have e1 : splitWs (c :: ((c2 :: w'') ++ ' ' :: r))
          = if isWs c then splitWs ((c2 :: w'') ++ ' ' :: r)
            else match splitWs ((c2 :: w'') ++ ' ' :: r) with
                 | [] => [[c]]
                 | w :: ws => if isWs c2 then [c] :: w :: ws else (c :: w) :: ws :=
        rfl
      show splitWs (c :: ((c2 :: w'') ++ ' ' :: r)) = (c :: c2 :: w'') :: splitWs r
      rw [e1, if_neg (by rw [hc]; exact Bool.noConfusion), ih']
      show (if isWs c2 = true then [c] :: (c2 :: w'') :: splitWs r
        else (c :: c2 :: w'') :: splitWs r) = (c :: c2 :: w'') :: splitWs r
      rw [if_neg (by rw [hc2]; exact Bool.noConfusion)]

/-- A single whitespace-free word is one token. -/
theorem splitWs_last (w : List Char) (hw : ∀ c ∈ w, isWs c = false)
    (hne : w ≠ []) : splitWs w = [w] := by
  induction w with
  | nil => exact absurd rfl hne
  | cons c w' ih =>
    cases w' with
    | nil =>
      have hc : isWs c = false := hw c (by simp)
      show splitWs [c] = [[c]]
      rw [show splitWs [c] = if isWs c then splitWs []
          else match splitWs [] with
               | [] => [[c]]
               | w :: ws => match ([] : List Char) with
                 | [] => [[c]]
                 | d :: _ => if isWs d then [c] :: w :: ws else (c :: w) :: ws
        from rfl]
      rw [if_neg (by rw [hc]; exact Bool.noConfusion)]
      rfl
    | cons c2 w'' =>
      have hc : isWs c = false := hw c (by simp)
      have hc2 : isWs c2 = false := hw c2 (by simp)
      have ih' := ih (fun x hx => hw x (by simp [List.mem_cons] at hx ⊢; tauto))
        (by simp)
      have e1 : splitWs (c :: c2 :: w'')
          = if isWs c then splitWs (c2 :: w'')
            else match splitWs (c2 :: w'') with
                 | [] => [[c]]
                 | w :: ws => if isWs c2 then [c] :: w :: ws else (c :: w) :: ws :=
        rfl
      show splitWs (c :: c2 :: w'') = [c :: c2 :: w'']
      rw [e1, if_neg (by rw [hc]; exact Bool.noConfusion), ih']
      show (if isWs c2 = true then [c] :: (c2 :: w'') :: ([] : List (List Char))
        else (c :: c2 :: w'') :: []) = [c :: c2 :: w'']
      rw [if_neg (by rw [hc2]; exact Bool.noConfusion)]

/-- Splitting a space-join of whitespace-free nonempty tokens recovers
the tokens. -/
theorem splitWs_joinSpaceData (toks : List (List Char))
    (h : ∀ t ∈ toks, t ≠ [] ∧ ∀ c ∈ t, isWs c = false) (hne : toks ≠ []) :
    splitWs (joinSpaceData toks) = toks := by
  induction toks with
  | nil => exact absurd rfl hne
  | cons a as ih =>
    cases as with
    | nil =>
      show splitWs (a ++ sepTail []) = [a]
      rw [show sepTail [] = [] from rfl, List.append_nil]
      exact splitWs_last a (h a (by simp)).2 (h a (by simp)).1
    | cons b bs =>
      show splitWs (a ++ ' ' :: (b ++ sepTail bs)) = a :: b :: bs
      rw [splitWs_word a _ (h a (by simp)).2 (h a (by simp)).1]
      have := ih (fun t ht => h t (by simp [List.mem_cons] at ht ⊢; tauto)) (by simp)
      rw [show joinSpaceData (b :: bs) = b ++ sepTail bs from rfl] at this
      rw [this]

/-- `dropWhile` keeps a list whose members all fail the predicate. -/
theorem dropWhile_eq_self_of_none (p : Char → Bool) (l : List Char)
    (h : ∀ c ∈ l, p c = false) : l.dropWhile p = l := by
  cases l with
  | nil => rfl
  | cons a as =>
    rw [List.dropWhile_cons, if_neg (by rw [h a (by simp)]; exact Bool.noConfusion)]

/-- Stripping whitespace from a whitespace-free list changes nothing. -/
theorem stripWs_eq_self (l : List Char) (h : ∀ c ∈ l, isWs c = false) :
    stripWs l = l := by
  unfold stripWs
  rw [dropWhile_eq_self_of_none _ l h,
    dropWhile_eq_self_of_none _ l.reverse (fun c hc => h c (by simpa using hc)),
    List.reverse_reverse]

/-! ### The chunk decomposition of the parameter string -/

/-- A quoted-parameter chunk `name="V";`. -/
def chunkQ (key : String) (V : List Char) : List Char :=
  (key.data ++ ['=', '"']) ++ (V ++ ['"', ';'])

/-- An integer-parameter chunk `name=D;`. -/
def chunkI (key : String) (D : List Char) : List Char :=
  (key.data ++ ['=']) ++ (D ++ [';'])

/-- The final `tag="T"` chunk (no trailing `;`). -/
def chunkT (V : List Char) : List Char := ("tag".data ++ ['=', '"']) ++ (V ++ ['"'])

/-- The leading `(components);` chunk. -/
def chunkC (CS : List Char) : List Char := ('(' :: CS) ++ [')', ';']

/-- The whole parameter portion of a `Signature-Input`, chunk by chunk. -/
def paramsChunks (CS D1 D2 K A N T : List Char) : List Char :=
  chunkC CS ++ (chunkI "created" D1 ++ (chunkI "expires" D2 ++ (chunkQ "keyid" K
    ++ (chunkQ "alg" A ++ (chunkQ "nonce" N ++ chunkT T)))))

/-- The components chunk ends in `;`. -/
theorem getLast?_chunkC (CS : List Char) : (chunkC CS).getLast? = some ';' := by
  rw [chunkC, List.getLast?_append_of_ne_nil _ (by simp)]
  rfl

/-- An integer chunk ends in `;`. -/
theorem getLast?_chunkI (key : String) (D : List Char) :
    (chunkI key D).getLast? = some ';' :=
  getLast?_chunk _ _ (getLast?_chunk _ _ rfl (by simp)) (by simp)

/-- A quoted chunk ends in `;`. -/
theorem getLast?_chunkQ (key : String) (V : List Char) :
    (chunkQ key V).getLast? = some ';' :=
  getLast?_chunk _ _ (getLast?_chunk _ _ rfl (by simp)) (by simp)

/-- A parameter pattern (they all carry `=`) does not occur in the
components chunk when the component string is free of `=`. -/
theorem containsSub_chunkC (pat CS : List Char) (hp : '=' ∈ pat)
    (hCS : ∀ c ∈ CS, c ≠ '=') : containsSub pat (chunkC CS) = false := by
  refine containsSub_eq_false_of_lacks pat _ '=' hp ?_
  intro x hx
  rcases List.mem_append.mp hx with hx | hx
  · rcases List.mem_cons.mp hx with hx | hx
    · subst hx; decide
    · exact hCS x hx
  · simp only [List.mem_cons, List.not_mem_nil, or_false] at hx
    rcases hx with hx | hx <;> (subst hx; decide)

/-- `strip('"')` of a quote-wrapped quote-free word gives the word. -/
theorem stripQuotes_quoted (n : List Char) (hne : n ≠ [])
    (hq : ∀ c ∈ n, c ≠ '"') : stripQuotes ('"' :: n ++ ['"']) = n := by
  unfold stripQuotes
  have h1 : List.dropWhile (fun x => decide (x = '"')) ('"' :: n ++ ['"'])
      = n ++ ['"'] := by
    rw [show ('"' :: n ++ ['"'] : List Char) = '"' :: (n ++ ['"']) from rfl,
      List.dropWhile_cons, if_pos (by decide)]
    cases n with
    | nil => exact absurd rfl hne
    | cons n0 n' =>
      rw [show ((n0 :: n') ++ ['"'] : List Char) = n0 :: (n' ++ ['"']) from rfl,
        List.dropWhile_cons,
        if_neg (by rw [decide_eq_false (hq n0 (by simp))]; exact Bool.noConfusion)]
  rw [h1]
  have h2 : (n ++ ['"']).reverse = '"' :: n.reverse := by simp
  rw [h2, List.dropWhile_cons, if_pos (by decide),
    dropWhile_eq_self_of_none _ n.reverse
      (fun c hc => decide_eq_false (hq c (by simpa using hc))),
    List.reverse_reverse]

/-- Master extraction lemma: each of the verifier's seven regex scans,
run over the chunk-decomposed parameter string, recovers exactly the value
the signer embedded, under the hygiene conditions the regex approach
needs (quote- and equals-free values, digit timestamps, an equals- and
parenthesis-free component list). -/
theorem extract_paramsChunks (CS D1 D2 K A N T : List Char)
    (hCSne : CS ≠ []) (hCS : ∀ c ∈ CS, c ≠ '=' ∧ c ≠ ')')
    (hD1n : D1 ≠ []) (hD1 : ∀ c ∈ D1, c.isDigit = true)
    (hD2n : D2 ≠ []) (hD2 : ∀ c ∈ D2, c.isDigit = true)
    (hKn : K ≠ []) (hK : ∀ c ∈ K, c ≠ '"' ∧ c ≠ '=')
    (hAn : A ≠ []) (hA : ∀ c ∈ A, c ≠ '"' ∧ c ≠ '=')
    (hNn : N ≠ []) (hN : ∀ c ∈ N, c ≠ '"' ∧ c ≠ '=')
    (hTn : T ≠ []) (hT : ∀ c ∈ T, c ≠ '"' ∧ c ≠ '=') :
    extractInt "created".data (paramsChunks CS D1 D2 K A N T)
      = some (Int.ofNat (parseDigits D1))
    ∧ extractInt "expires".data (paramsChunks CS D1 D2 K A N T)
      = some (Int.ofNat (parseDigits D2))
    ∧ extractQuoted "keyid".data (paramsChunks CS D1 D2 K A N T)
      = some (String.mk K)
    ∧ extractQuoted "alg".data (paramsChunks CS D1 D2 K A N T)
      = some (String.mk A)
    ∧ extractQuoted "nonce".data (paramsChunks CS D1 D2 K A N T)
      = some (String.mk N)
    ∧ extractQuoted "tag".data (paramsChunks CS D1 D2 K A N T)
      = some (String.mk T)
    ∧ scanA matchParenAt (paramsChunks CS D1 D2 K A N T) = some CS := by
  have hCSeq : ∀ c ∈ CS, c ≠ '=' := fun c hc => (hCS c hc).1
  -- pattern absence in single chunks
  have hcc : ∀ pat : List Char, '=' ∈ pat → containsSub pat (chunkC CS) = false :=
    fun pat hp => containsSub_chunkC pat CS hp hCSeq
  have hci : ∀ (pat : List Char) (key : String) (D : List Char) (d : Char),
      containsSub pat (key.data ++ ['=']) = false → d ∈ pat → d.isDigit = false →
      (∀ c ∈ D, c.isDigit = true) →
      (∀ k, k < pat.length → 0 < k → listSuf (pat.take k) (key.data ++ ['=']) = false) →
      (∀ c, pat.head? = some c → c.isDigit = false) →
      containsSub pat [';'] = false →
      containsSub pat (chunkI key D) = false :=
    fun pat key D d h1 h2 h3 h4 h5 h6 h7 =>
      containsSub_int_chunk_eq_false pat (key.data ++ ['=']) D d h1 h2 h3 h4 h5 h6 h7
  have hcq : ∀ (pat : List Char) (key : String) (V : List Char),
      containsSub pat (key.data ++ ['=', '"']) = false →
      (∀ c ∈ V, c ≠ '"' ∧ c ≠ '=') → '=' ∈ pat →
      (∀ k, k < pat.length → 0 < k →
        listSuf (pat.take k) (key.data ++ ['=', '"']) = false) →
      (∀ k, k < pat.length → 0 < k →
        '=' ∈ pat.take k ∨ listPre (pat.drop k) ['"', ';'] = false) →
      containsSub pat ['"', ';'] = false →
      containsSub pat (chunkQ key V) = false :=
    fun pat key V h1 h2 h3 h4 h5 h6 =>
      containsSub_quoted_chunk_eq_false pat (key.data ++ ['=', '"']) V h1 h2 h3 h4 h5 h6
  -- skip regions
  have hXe : containsSub ("expires".data ++ ['='])
      (chunkC CS ++ chunkI "created" D1) = false :=
    containsSub_chunk_append _ _ _ (hcc _ (by decide))
      (hci _ "created" D1 'x' (by decide) (by decide) (by decide) hD1 (by decide)
        (by decide) (by decide))
      (getLast?_chunkC CS) (by decide) (by decide)
  have hXk : containsSub ("keyid".data ++ ['=', '"'])
      (chunkC CS ++ (chunkI "created" D1 ++ chunkI "expires" D2)) = false :=
    containsSub_chunk_append _ _ _ (hcc _ (by decide))
      (containsSub_chunk_append _ _ _
        (hci _ "created" D1 '"' (by decide) (by decide) (by decide) hD1 (by decide)
          (by decide) (by decide))
        (hci _ "expires" D2 '"' (by decide) (by decide) (by decide) hD2 (by decide)
          (by decide) (by decide))
        (getLast?_chunkI _ _) (by decide) (by decide))
      (getLast?_chunkC CS) (by decide) (by decide)
  have hXa : containsSub ("alg".data ++ ['=', '"'])
      (chunkC CS ++ (chunkI "created" D1 ++ (chunkI "expires" D2
        ++ chunkQ "keyid" K))) = false :=
    containsSub_chunk_append _ _ _ (hcc _ (by decide))
      (containsSub_chunk_append _ _ _
        (hci _ "created" D1 '"' (by decide) (by decide) (by decide) hD1 (by decide)
          (by decide) (by decide))
        (containsSub_chunk_append _ _ _
          (hci _ "expires" D2 '"' (by decide) (by decide) (by decide) hD2 (by decide)
            (by decide) (by decide))
          (hcq _ "keyid" K (by decide) hK (by decide) (by decide) (by decide)
            (by decide))
          (getLast?_chunkI _ _) (by decide) (by decide))
        (getLast?_chunkI _ _) (by decide) (by decide))
      (getLast?_chunkC CS) (by decide) (by decide)
  have hXn : containsSub ("nonce".data ++ ['=', '"'])
      (chunkC CS ++ (chunkI "created" D1 ++ (chunkI "expires" D2
        ++ (chunkQ "keyid" K ++ chunkQ "alg" A)))) = false :=
    containsSub_chunk_append _ _ _ (hcc _ (by decide))
      (containsSub_chunk_append _ _ _
        (hci _ "created" D1 '"' (by decide) (by decide) (by decide) hD1 (by decide)
          (by decide) (by decide))
        (containsSub_chunk_append _ _ _
          (hci _ "expires" D2 '"' (by decide) (by decide) (by decide) hD2 (by decide)
            (by decide) (by decide))
          (containsSub_chunk_append _ _ _
            (hcq _ "keyid" K (by decide) hK (by decide) (by decide) (by decide)
              (by decide))
            (hcq _ "alg" A (by decide) hA (by decide) (by decide) (by decide)
              (by decide))
            (getLast?_chunkQ _ _) (by decide) (by decide))
          (getLast?_chunkI _ _) (by decide) (by decide))
        (getLast?_chunkI _ _) (by decide) (by decide))
      (getLast?_chunkC CS) (by decide) (by decide)
  have hXt : containsSub ("tag".data ++ ['=', '"'])
      (chunkC CS ++ (chunkI "created" D1 ++ (chunkI "expires" D2
        ++ (chunkQ "keyid" K ++ (chunkQ "alg" A ++ chunkQ "nonce" N))))) = false :=
    containsSub_chunk_append _ _ _ (hcc _ (by decide))
      (containsSub_chunk_append _ _ _
        (hci _ "created" D1 '"' (by decide) (by decide) (by decide) hD1 (by decide)
          (by decide) (by decide))
        (containsSub_chunk_append _ _ _
          (hci _ "expires" D2 '"' (by decide) (by decide) (by decide) hD2 (by decide)
            (by decide) (by decide))
          (containsSub_chunk_append _ _ _
            (hcq _ "keyid" K (by decide) hK (by decide) (by decide) (by decide)
              (by decide))
            (containsSub_chunk_append _ _ _
              (hcq _ "alg" A (by decide) hA (by decide) (by decide) (by decide)
                (by decide))
              (hcq _ "nonce" N (by decide) hN (by decide) (by decide) (by decide)
                (by decide))
              (getLast?_chunkQ _ _) (by decide) (by decide))
            (getLast?_chunkQ _ _) (by decide) (by decide))
          (getLast?_chunkI _ _) (by decide) (by decide))
        (getLast?_chunkI _ _) (by decide) (by decide))
      (getLast?_chunkC CS) (by decide) (by decide)
  -- region end-characters
  have hLe : (chunkC CS ++ chunkI "created" D1).getLast? = some ';' :=
    getLast?_chunk _ _ (getLast?_chunkI _ _) (by simp [chunkI])
  have hLk : (chunkC CS ++ (chunkI "created" D1 ++ chunkI "expires" D2)).getLast?
      = some ';' :=
    getLast?_chunk _ _ (getLast?_chunk _ _ (getLast?_chunkI _ _) (by simp [chunkI]))
      (by simp [chunkI])
  have hLa : (chunkC CS ++ (chunkI "created" D1 ++ (chunkI "expires" D2
      ++ chunkQ "keyid" K))).getLast? = some ';' :=
    getLast?_chunk _ _ (getLast?_chunk _ _
      (getLast?_chunk _ _ (getLast?_chunkQ _ _) (by simp [chunkQ]))
      (by simp [chunkI, chunkQ])) (by simp [chunkI, chunkQ])
  have hLn : (chunkC CS ++ (chunkI "created" D1 ++ (chunkI "expires" D2
      ++ (chunkQ "keyid" K ++ chunkQ "alg" A)))).getLast? = some ';' :=
    getLast?_chunk _ _ (getLast?_chunk _ _
      (getLast?_chunk _ _ (getLast?_chunk _ _ (getLast?_chunkQ _ _)
        (by simp [chunkQ])) (by simp [chunkQ]))
      (by simp [chunkI, chunkQ])) (by simp [chunkI, chunkQ])
  have hLt : (chunkC CS ++ (chunkI "created" D1 ++ (chunkI "expires" D2
      ++ (chunkQ "keyid" K ++ (chunkQ "alg" A ++ chunkQ "nonce" N))))).getLast?
      = some ';' :=
    getLast?_chunk _ _ (getLast?_chunk _ _
      (getLast?_chunk _ _ (getLast?_chunk _ _ (getLast?_chunk _ _
        (getLast?_chunkQ _ _) (by simp [chunkQ])) (by simp [chunkQ]))
        (by simp [chunkQ])) (by simp [chunkI, chunkQ])) (by simp [chunkI, chunkQ])
  refine ⟨?_, ?_, ?_, ?_, ?_, ?_, ?_⟩
  · -- created
    have e : paramsChunks CS D1 D2 K A N T
        = chunkC CS ++ (("created".data ++ ['='])
          ++ (D1 ++ ';' :: (chunkI "expires" D2 ++ (chunkQ "keyid" K
            ++ (chunkQ "alg" A ++ (chunkQ "nonce" N ++ chunkT T)))))) := by
      simp [paramsChunks, chunkI, List.append_assoc]
    unfold extractInt
    rw [e, scan_int_skip _ _ _ (hcc _ (by decide)) (getLast?_chunkC CS) (by decide),
      scanA_hit _ _ _ (matchIntAt_hit "created".data D1 ';' _ hD1n hD1 (by decide))]
  · -- expires
    have e : paramsChunks CS D1 D2 K A N T
        = (chunkC CS ++ chunkI "created" D1) ++ (("expires".data ++ ['='])
          ++ (D2 ++ ';' :: (chunkQ "keyid" K
            ++ (chunkQ "alg" A ++ (chunkQ "nonce" N ++ chunkT T))))) := by
      simp [paramsChunks, chunkI, List.append_assoc]
    unfold extractInt
    rw [e, scan_int_skip _ _ _ hXe hLe (by decide),
      scanA_hit _ _ _ (matchIntAt_hit "expires".data D2 ';' _ hD2n hD2 (by decide))]
  · -- keyid
    have e : paramsChunks CS D1 D2 K A N T
        = (chunkC CS ++ (chunkI "created" D1 ++ chunkI "expires" D2))
          ++ (("keyid".data ++ ['=', '"'])
            ++ (K ++ '"' :: (';' :: (chunkQ "alg" A
              ++ (chunkQ "nonce" N ++ chunkT T))))) := by
      simp [paramsChunks, chunkQ, List.append_assoc]
    unfold extractQuoted
    rw [e, scan_quoted_skip _ _ _ hXk hLk (by decide),
      scanA_hit _ _ _ (matchQuotedAt_hit "keyid".data K _ hKn
        (fun c hc => (hK c hc).1))]
    rfl
  · -- alg
    have e : paramsChunks CS D1 D2 K A N T
        = (chunkC CS ++ (chunkI "created" D1 ++ (chunkI "expires" D2
            ++ chunkQ "keyid" K)))
          ++ (("alg".data ++ ['=', '"'])
            ++ (A ++ '"' :: (';' :: (chunkQ "nonce" N ++ chunkT T)))) := by
      simp [paramsChunks, chunkQ, List.append_assoc]
    unfold extractQuoted
    rw [e, scan_quoted_skip _ _ _ hXa hLa (by decide),
      scanA_hit _ _ _ (matchQuotedAt_hit "alg".data A _ hAn
        (fun c hc => (hA c hc).1))]
    rfl
  · -- nonce
    have e : paramsChunks CS D1 D2 K A N T
        = (chunkC CS ++ (chunkI "created" D1 ++ (chunkI "expires" D2
            ++ (chunkQ "keyid" K ++ chunkQ "alg" A))))
          ++ (("nonce".data ++ ['=', '"'])
            ++ (N ++ '"' :: (';' :: chunkT T))) := by
      simp [paramsChunks, chunkQ, List.append_assoc]
    unfold extractQuoted
    rw [e, scan_quoted_skip _ _ _ hXn hLn (by decide),
      scanA_hit _ _ _ (matchQuotedAt_hit "nonce".data N _ hNn
        (fun c hc => (hN c hc).1))]
    rfl
  · -- tag
    have e : paramsChunks CS D1 D2 K A N T
        = (chunkC CS ++ (chunkI "created" D1 ++ (chunkI "expires" D2
            ++ (chunkQ "keyid" K ++ (chunkQ "alg" A ++ chunkQ "nonce" N)))))
          ++ (("tag".data ++ ['=', '"']) ++ (T ++ '"' :: [])) := by
      simp [paramsChunks, chunkQ, chunkT, List.append_assoc]
    unfold extractQuoted
    rw [e, scan_quoted_skip _ _ _ hXt hLt (by decide),
      scanA_hit _ _ _ (matchQuotedAt_hit "tag".data T [] hTn
        (fun c hc => (hT c hc).1))]
    rfl
  · -- components
    have e : paramsChunks CS D1 D2 K A N T
        = '(' :: (CS ++ ')' :: (';' :: (chunkI "created" D1
          ++ (chunkI "expires" D2 ++ (chunkQ "keyid" K
            ++ (chunkQ "alg" A ++ (chunkQ "nonce" N ++ chunkT T))))))) := by
      simp [paramsChunks, chunkC, List.append_assoc]
    rw [e, scanA_hit _ _ _ (matchParenAt_hit CS _ hCSne
      (fun c hc => (hCS c hc).2))]

/-- ASCII character class of a lowercase header-name character: lowercase
letter, digit, or hyphen. -/
def goodNameChar (c : Char) : Bool :=
  (97 ≤ c.toNat && c.toNat ≤ 122) || (48 ≤ c.toNat && c.toNat ≤ 57) || c.toNat = 45

/-- A good name character is not an ASCII uppercase letter. -/
theorem goodNameChar_not_upper (c : Char) (h : goodNameChar c = true) :
    ¬('A' ≤ c ∧ c ≤ 'Z') := by
  simp only [goodNameChar, Bool.or_eq_true, Bool.and_eq_true, decide_eq_true_eq] at h
  rintro ⟨h1, h2⟩
  rw [Char.le_def] at h1 h2
  have h1' : 65 ≤ c.toNat := h1
  have h2' : c.toNat ≤ 90 := h2
  omega

/-- `asciiLower` fixes good name characters. -/
theorem asciiLower_fix (c : Char) (h : goodNameChar c = true) :
    asciiLower c = c := by
  unfold asciiLower
  rw [if_neg (goodNameChar_not_upper c h)]

/-- `lowerStr` fixes strings of good name characters. -/
theorem lowerStr_fix (s : String) (h : ∀ c ∈ s.data, goodNameChar c = true) :
    lowerStr s = s := by
  unfold lowerStr
  rw [List.map_congr_left (fun c hc => asciiLower_fix c (h c hc)), List.map_id']

/-- A good name character is none of the delimiter characters of the
`Signature-Input` wire format, and not whitespace. -/
theorem goodNameChar_delims (c : Char) (h : goodNameChar c = true) :
    c ≠ '=' ∧ c ≠ ')' ∧ c ≠ '"' ∧ c ≠ '@' ∧ isWs c = false := by
  have hne : ∀ x : Char, goodNameChar x = false → c ≠ x := by
    intro x hx he
    rw [he, hx] at h
    exact Bool.noConfusion h
  refine ⟨hne '=' (by decide), hne ')' (by decide), hne '"' (by decide),
    hne '@' (by decide), ?_⟩
  unfold isWs
  rw [decide_eq_false (hne ' ' (by decide)), decide_eq_false (hne '\t' (by decide)),
    decide_eq_false (hne '\n' (by decide)), decide_eq_false (hne '\r' (by decide))]
  rfl

/-- The `.data` of the signer's parameter line is exactly the chunk
decomposition of the wire format. -/
theorem buildParamsLine_data (keyid : String) (alg : SignatureAlgorithm)
    (hasBody : Bool) (created expires : Int) (nonce : String)
    (it : InteractionType) (extras : List (String × String))
    (hc : 0 ≤ created) (he : 0 ≤ expires) :
    (buildSignatureParamsLine keyid alg hasBody created expires nonce it extras).data
      = paramsChunks
          (joinSpaceData
            (((coveredComponentNames hasBody extras).map
              (fun n => "\"" ++ n ++ "\"")).map String.data))
          (natDigits created.natAbs) (natDigits expires.natAbs)
          keyid.data alg.wire.data nonce.data it.value.data := by
  have l1 : ("(" : String).data = ['('] := rfl
  have l2 : (");created=" : String).data = [')', ';'] ++ ("created".data ++ ['=']) := rfl
  have l3 : (";expires=" : String).data = [';'] ++ ("expires".data ++ ['=']) := rfl
  have l4 : (";keyid=\"" : String).data = [';'] ++ ("keyid".data ++ ['=', '"']) := rfl
  have l5 : ("\";alg=\"" : String).data = ['"', ';'] ++ ("alg".data ++ ['=', '"']) := rfl
  have l6 : ("\";nonce=\"" : String).data
      = ['"', ';'] ++ ("nonce".data ++ ['=', '"']) := rfl
  have l7 : ("\";tag=\"" : String).data = ['"', ';'] ++ ("tag".data ++ ['=', '"']) := rfl
  have l8 : ("\"" : String).data = ['"'] := rfl
  unfold buildSignatureParamsLine
  simp only [String.data_append, l1, l2, l3, l4, l5, l6, l7, l8,
    renderInt_data created hc, renderInt_data expires he,
    intercalate_space_data, paramsChunks, chunkC, chunkI, chunkQ, chunkT,
    List.append_assoc, List.cons_append, List.nil_append]

/-- Characters in the tail of a space-join are the space or token
characters. -/
theorem mem_sepTail (bs : List (List Char)) (c : Char) (h : c ∈ sepTail bs) :
    c = ' ' ∨ ∃ t ∈ bs, c ∈ t := by
  induction bs with
  | nil => exact absurd h (by simp [sepTail])
  | cons b bs ih =>
    rw [sepTail, List.mem_cons] at h
    rcases h with h | h
    · exact Or.inl h
    · rw [List.mem_append] at h
      rcases h with h | h
      · exact Or.inr ⟨b, by simp, h⟩
      · rcases ih h with h | ⟨t, ht, hc⟩
        · exact Or.inl h
        · exact Or.inr ⟨t, by simp [ht], hc⟩

/-- Characters of a space-join are the space or token characters. -/
theorem mem_joinSpaceData (toks : List (List Char)) (c : Char)
    (h : c ∈ joinSpaceData toks) : c = ' ' ∨ ∃ t ∈ toks, c ∈ t := by
  cases toks with
  | nil => exact absurd h (by simp [joinSpaceData])
  | cons a as =>
    rw [joinSpaceData, List.mem_append] at h
    rcases h with h | h
    · exact Or.inr ⟨a, by simp, h⟩
    · rcases mem_sepTail as c h with h | ⟨t, ht, hc⟩
      · exact Or.inl h
      · exact Or.inr ⟨t, by simp [ht], hc⟩

/-- Sorted insertion is a permutation of consing. -/
theorem insertByKey_perm (p : String × String) (l : List (String × String)) :
    List.Perm (insertByKey p l) (p :: l) := by
  induction l with
  | nil => exact List.Perm.refl _
  | cons q rest ih =>
    rw [insertByKey]
    by_cases h : p.1 < q.1
    · rw [if_pos h]
    · rw [if_neg h]
      exact (List.Perm.cons q ih).trans (List.Perm.swap p q rest)

/-- Sorting the header items permutes them. -/
theorem sortedItems_perm (l : List (String × String)) :
    List.Perm (sortedItems l) l := by
  induction l with
  | nil => exact List.Perm.refl _
  | cons p rest ih =>
    exact (insertByKey_perm p (sortedItems rest)).trans (List.Perm.cons p ih)

/-- Membership transfers from the sorted items back to the original list. -/
theorem mem_of_sortedItems (l : List (String × String)) (p : String × String)
    (h : p ∈ sortedItems l) : p ∈ l :=
  (sortedItems_perm l).mem_iff.mp h

/-- A space-join with a nonempty first token is nonempty. -/
theorem joinSpaceData_ne_nil (t : List Char) (ts : List (List Char)) (h : t ≠ []) :
    joinSpaceData (t :: ts) ≠ [] := by
  rw [joinSpaceData]
  intro he
  exact h (List.append_eq_nil.mp he).1

/-- Quoting a string wraps its characters in quotes. -/
theorem quoted_data (n : String) : ("\"" ++ n ++ "\"").data = '"' :: (n.data ++ ['"']) := by
  simp [String.data_append]

/-- Every covered-component name the signer emits is nonempty and made of
good name characters or `@` (for the derived components), provided the
lowercased extra-header names are good. -/
theorem coveredComponentNames_chars (hasBody : Bool)
    (extras : List (String × String))
    (hx : ∀ p ∈ extras, (lowerStr p.1).data ≠ [] ∧
      ∀ c ∈ (lowerStr p.1).data, goodNameChar c = true) :
    ∀ n ∈ coveredComponentNames hasBody extras,
      n.data ≠ [] ∧ ∀ c ∈ n.data, goodNameChar c = true ∨ c = '@' := by
  intro n hn
  unfold coveredComponentNames at hn
  rw [List.mem_append, List.mem_append] at hn
  rcases hn with (hn | hn) | hn
  · simp only [List.mem_cons, List.not_mem_nil, or_false] at hn
    rcases hn with rfl | rfl | rfl <;> exact ⟨by decide, by decide⟩
  · cases hasBody with
    | false => simp at hn
    | true =>
      simp only [if_pos, List.mem_singleton] at hn
      subst hn
      exact ⟨by decide, by decide⟩
  · rw [List.mem_map] at hn
    obtain ⟨p, hp, rfl⟩ := hn
    obtain ⟨h1, h2⟩ := hx p (mem_of_sortedItems extras p hp)
    exact ⟨h1, fun c hc => Or.inl (h2 c hc)⟩

/-- Parsing the `Signature-Input` header the signer emits recovers exactly
the signer's parameters and covered components, under the wire-format
hygiene conditions on keyid, nonce and extra-header names. -/
theorem parseSignatureInput_roundtrip (keyid : String) (alg : SignatureAlgorithm)
    (hasBody : Bool) (created expires : Int) (nonce : String)
    (it : InteractionType) (extras : List (String × String))
    (hc : 0 ≤ created) (he : 0 ≤ expires)
    (hkidne : keyid.data ≠ []) (hkid : ∀ c ∈ keyid.data, c ≠ '"' ∧ c ≠ '=')
    (hnne : nonce.data ≠ []) (hnc : ∀ c ∈ nonce.data, c ≠ '"' ∧ c ≠ '=')
    (hx : ∀ p ∈ extras, (lowerStr p.1).data ≠ [] ∧
      ∀ c ∈ (lowerStr p.1).data, goodNameChar c = true) :
    parseSignatureInput ("sig1=" ++ buildSignatureParamsLine keyid alg hasBody
        created expires nonce it extras)
      = some { keyid := some keyid, created := some created, expires := some expires,
               nonce := some nonce, alg := some alg.wire, tag := some it.value,
               components := some (coveredComponentNames hasBody extras) } := by
  have hnames := coveredComponentNames_chars hasBody extras hx
  have htoks : ∀ t ∈ ((coveredComponentNames hasBody extras).map
      (fun n => "\"" ++ n ++ "\"")).map String.data,
      t ≠ [] ∧ ∀ c ∈ t, c = '"' ∨ goodNameChar c = true ∨ c = '@' := by
    intro t ht
    rw [List.map_map, List.mem_map] at ht
    obtain ⟨n, hn, rfl⟩ := ht
    obtain ⟨h1, h2⟩ := hnames n hn
    constructor
    · show ("\"" ++ n ++ "\"").data ≠ []
      rw [quoted_data n]
      exact List.cons_ne_nil _ _
    · show ∀ c ∈ ("\"" ++ n ++ "\"").data, c = '"' ∨ goodNameChar c = true ∨ c = '@'
      rw [quoted_data n]
      intro c hcm
      rcases List.mem_cons.mp hcm with rfl | hcm
      · exact Or.inl rfl
      · rcases List.mem_append.mp hcm with hcm | hcm
        · exact Or.inr (h2 c hcm)
        · rw [List.mem_singleton] at hcm
          subst hcm
          exact Or.inl rfl
  have hCS : ∀ c ∈ joinSpaceData (((coveredComponentNames hasBody extras).map
      (fun n => "\"" ++ n ++ "\"")).map String.data), c ≠ '=' ∧ c ≠ ')' := by
    intro c hcm
    rcases mem_joinSpaceData _ c hcm with rfl | ⟨t, ht, hct⟩
    · exact ⟨by decide, by decide⟩
    · rcases (htoks t ht).2 c hct with rfl | hg | rfl
      · exact ⟨by decide, by decide⟩
      · exact ⟨(goodNameChar_delims c hg).1, (goodNameChar_delims c hg).2.1⟩
      · exact ⟨by decide, by decide⟩
  have htoksne : ((coveredComponentNames hasBody extras).map
      (fun n => "\"" ++ n ++ "\"")).map String.data ≠ [] := by
    simp [coveredComponentNames]
  have hCSne : joinSpaceData (((coveredComponentNames hasBody extras).map
      (fun n => "\"" ++ n ++ "\"")).map String.data) ≠ [] := by
    cases htk : ((coveredComponentNames hasBody extras).map
        (fun n => "\"" ++ n ++ "\"")).map String.data with
    | nil => exact absurd htk htoksne
    | cons t ts =>
      exact joinSpaceData_ne_nil t ts
        (htoks t (by rw [htk]; exact List.mem_cons_self t ts)).1
  have hsplitfacts : ∀ t ∈ ((coveredComponentNames hasBody extras).map
      (fun n => "\"" ++ n ++ "\"")).map String.data,
      t ≠ [] ∧ ∀ c ∈ t, isWs c = false := by
    intro t ht
    refine ⟨(htoks t ht).1, ?_⟩
    intro c hct
    rcases (htoks t ht).2 c hct with rfl | hg | rfl
    · decide
    · exact (goodNameChar_delims c hg).2.2.2.2
    · decide
  have hAne : alg.wire.data ≠ [] := by cases alg <;> decide
  have hA : ∀ c ∈ alg.wire.data, c ≠ '"' ∧ c ≠ '=' := by cases alg <;> decide
  have hTne : it.value.data ≠ [] := by cases it <;> decide
  have hT : ∀ c ∈ it.value.data, c ≠ '"' ∧ c ≠ '=' := by cases it <;> decide
  obtain ⟨e1, e2, e3, e4, e5, e6, e7⟩ :=
    extract_paramsChunks
      (joinSpaceData (((coveredComponentNames hasBody extras).map
        (fun n => "\"" ++ n ++ "\"")).map String.data))
      (natDigits created.natAbs) (natDigits expires.natAbs)
      keyid.data alg.wire.data nonce.data it.value.data
      hCSne hCS
      (natDigits_spec created.natAbs).1 (natDigits_spec created.natAbs).2.1
      (natDigits_spec expires.natAbs).1 (natDigits_spec expires.natAbs).2.1
      hkidne hkid hAne hA hnne hnc hTne hT
  have hcomp : extractComponents (paramsChunks
      (joinSpaceData (((coveredComponentNames hasBody extras).map
        (fun n => "\"" ++ n ++ "\"")).map String.data))
      (natDigits created.natAbs) (natDigits expires.natAbs)
      keyid.data alg.wire.data nonce.data it.value.data)
      = some (coveredComponentNames hasBody extras) := by
    unfold extractComponents
    rw [e7, Option.map_some']
    congr 1
    rw [splitWs_joinSpaceData _ hsplitfacts htoksne, List.map_map, List.map_map]
    have hper : ∀ n ∈ coveredComponentNames hasBody extras,
        (((fun c => String.mk (stripQuotes (stripWs c))) ∘ String.data) ∘
          (fun n => "\"" ++ n ++ "\"")) n = n := by
      intro n hn
      obtain ⟨h1, h2⟩ := hnames n hn
      show String.mk (stripQuotes (stripWs (("\"" ++ n ++ "\"").data))) = n
      rw [quoted_data n]
      have hws : ∀ c ∈ '"' :: (n.data ++ ['"']), isWs c = false := by
        intro c hcm
        rcases List.mem_cons.mp hcm with rfl | hcm
        · decide
        · rcases List.mem_append.mp hcm with hcm | hcm
          · rcases h2 c hcm with hg | rfl
            · exact (goodNameChar_delims c hg).2.2.2.2
            · decide
          · rw [List.mem_singleton] at hcm
            subst hcm
            decide
      rw [stripWs_eq_self _ hws]
      have hq : ∀ c ∈ n.data, c ≠ '"' := by
        intro c hcm
        rcases h2 c hcm with hg | rfl
        · exact (goodNameChar_delims c hg).2.2.1
        · decide
      rw [← List.cons_append, stripQuotes_quoted n.data h1 hq]
    rw [List.map_congr_left hper, List.map_id']
  unfold parseSignatureInput
  dsimp only
  rw [String.data_append]
  rw [if_pos (listPre_append_self _ _)]
  rw [show (("sig1=" : String).data
        ++ (buildSignatureParamsLine keyid alg hasBody created expires nonce
          it extras).data).drop 5
      = (buildSignatureParamsLine keyid alg hasBody created expires nonce
          it extras).data
    from List.drop_left ("sig1=" : String).data _]
  rw [buildParamsLine_data keyid alg hasBody created expires nonce it extras hc he]
  rw [e1, e2, e3, e4, e5, e6, hcomp]
  rw [(natDigits_spec created.natAbs).2.2, (natDigits_spec expires.natAbs).2.2]
  simp only [Int.ofNat_eq_natCast]
  rw [Int.natAbs_of_nonneg hc, Int.natAbs_of_nonneg he]

/-- Python-dict lookup across a concatenation: the later block wins. -/
theorem dictGet_append (A B : List (String × String)) (k : String) :
    dictGet (A ++ B) k = match dictGet B k with
      | some v => some v
      | none => dictGet A k := by
  induction A with
  | nil =>
    show dictGet B k = _
    cases dictGet B k <;> rfl
  | cons p A ih =>
    obtain ⟨k', v⟩ := p
    have hstep : ∀ (rest : List (String × String)), dictGet ((k', v) :: rest) k
        = match dictGet rest k with
          | some v' => some v'
          | none => if k' = k then some v else none := fun _ => rfl
    rw [List.cons_append, hstep, hstep, ih]
    cases dictGet B k <;> cases dictGet A k <;> rfl

/-- A key bound by no entry is absent from the dict. -/
theorem dictGet_none_of_absent (L : List (String × String)) (k : String)
    (h : ∀ p ∈ L, p.1 ≠ k) : dictGet L k = none := by
  induction L with
  | nil => rfl
  | cons p L ih =>
    obtain ⟨k', v⟩ := p
    show (match dictGet L k with
      | some v' => some v'
      | none => if k' = k then some v else none) = none
    rw [ih (fun q hq => h q (List.mem_cons_of_mem _ hq))]
    exact if_neg (h (k', v) (List.mem_cons_self _ _))

/-- With duplicate-free keys, dict lookup finds the unique binding. -/
theorem dictGet_of_mem_nodup (L : List (String × String)) (k : String) (v : String)
    (hnd : (L.map Prod.fst).Nodup) (hm : (k, v) ∈ L) : dictGet L k = some v := by
  induction L with
  | nil => exact absurd hm (List.not_mem_nil _)
  | cons p L ih =>
    obtain ⟨k', v'⟩ := p
    rw [List.map_cons, List.nodup_cons] at hnd
    show (match dictGet L k with
      | some w => some w
      | none => if k' = k then some v' else none) = some v
    rcases List.mem_cons.mp hm with heq | hm'
    · injection heq with h1 h2
      subst h1
      subst h2
      have habs : ∀ q ∈ L, q.1 ≠ k := by
        intro q hq hqe
        apply hnd.1
        rw [← hqe]
        exact List.mem_map.mpr ⟨q, hq, rfl⟩
      rw [dictGet_none_of_absent L k habs]
      exact if_pos rfl
    · rw [ih hnd.2 hm']
/-- The signature matcher succeeds on the signer's `Signature` header. -/
theorem matchSigAt_hit (v B : List Char) (hv : v ≠ [])
    (hc : ∀ c ∈ v, c ≠ ':') :
    matchSigAt ("sig1=:".data ++ (v ++ ':' :: B)) = some v := by
  unfold matchSigAt
  rw [if_pos (listPre_append_self _ _)]
  dsimp only
  rw [List.drop_left]
  have hcap : (v ++ ':' :: B).takeWhile (fun x => decide (x ≠ ':')) = v :=
    takeWhile_append_stop _ v ':' B (fun c hcm => by simp [hc c hcm]) (by simp)
  rw [hcap, if_pos ⟨hv, by rw [List.drop_left]; rfl⟩]

/-- Extracting the signature from the signer's `Signature` header decodes
the encoded payload. -/
theorem extractSignature_roundtrip (crypto : CryptoPrims) (enc : String)
    (hne : enc.data ≠ []) (hnc : ∀ c ∈ enc.data, c ≠ ':') :
    extractSignature crypto ("sig1=:" ++ enc ++ ":")
      = crypto.b64decode enc := by
  unfold extractSignature
  have hd : ("sig1=:" ++ enc ++ ":").data
      = "sig1=:".data ++ (enc.data ++ ':' :: []) := by
    simp [String.data_append]
  rw [hd, scanA_hit _ _ _ (matchSigAt_hit enc.data [] hne hnc)]

/-- A string of good name characters differs from each derived-component
identifier (they start with `@`) and from every fixed string containing a
bad character. -/
theorem goodName_ne_derived (s : String) (h1 : s.data ≠ [])
    (h2 : ∀ c ∈ s.data, goodNameChar c = true) :
    s ≠ "@method" ∧ s ≠ "@authority" ∧ s ≠ "@path" := by
  refine ⟨?_, ?_, ?_⟩ <;>
    · rintro rfl
      exact absurd (h2 '@' (by decide)) (by decide)

/-- The verifier's line for an extra header covered by the signer: with the
header present (lowercased, uniquely keyed) its value is reproduced. -/
theorem componentLine_extra (crypto : CryptoPrims) (method authority path : String)
    (body : Option String) (front : List (String × String))
    (extras : List (String × String)) (p : String × String) (hp : p ∈ extras)
    (hx : ∀ q ∈ extras, (lowerStr q.1).data ≠ [] ∧
      (∀ c ∈ (lowerStr q.1).data, goodNameChar c = true) ∧
      lowerStr q.1 ≠ "content-digest")
    (hnodup : (extras.map (fun q => lowerStr q.1)).Nodup) :
    componentLine crypto method authority path body
      (front ++ extras.map (fun q => (lowerStr q.1, q.2))) (lowerStr p.1)
      = ["\"" ++ lowerStr p.1 ++ "\": " ++ p.2] := by
  obtain ⟨h1, h2, h3⟩ := hx p hp
  obtain ⟨hm, ha, hpp⟩ := goodName_ne_derived (lowerStr p.1) h1 h2
  unfold componentLine
  rw [if_neg hm, if_neg ha, if_neg hpp, if_neg h3]
  rw [lowerStr_fix (lowerStr p.1) h2]
  rw [dictGet_append]
  rw [dictGet_of_mem_nodup (extras.map (fun q => (lowerStr q.1, q.2)))
    (lowerStr p.1) p.2 (by rw [List.map_map]; exact hnodup)
    (List.mem_map.mpr ⟨p, hp, rfl⟩)]
  rfl

/-- Folding the verifier's component lines over the signer's covered
components reproduces the signer's base lines (all but the final
`@signature-params` line). -/
theorem fold_componentLines (crypto : CryptoPrims) (method authority path : String)
    (body : Option String) (headersLower : List (String × String))
    (extras : List (String × String))
    (hhx : ∀ p ∈ extras, componentLine crypto method authority path body headersLower
      (lowerStr p.1) = ["\"" ++ lowerStr p.1 ++ "\": " ++ p.2]) :
    (coveredComponentNames (body ≠ none) extras).foldr
      (fun c acc => componentLine crypto method authority path body headersLower c ++ acc)
      []
      = ["\"@method\": " ++ upperStr method, "\"@authority\": " ++ authority,
         "\"@path\": " ++ path]
        ++ (match body with
            | some b => if b ≠ "" then
                ["\"content-digest\": sha-256=:" ++ computeContentDigest crypto b ++ ":"]
              else []
            | none => [])
        ++ (sortedItems extras).map (fun p => "\"" ++ lowerStr p.1 ++ "\": " ++ p.2) := by
  have hmap : ∀ L : List (String × String),
      (∀ p ∈ L, componentLine crypto method authority path body headersLower
        (lowerStr p.1) = ["\"" ++ lowerStr p.1 ++ "\": " ++ p.2]) →
      (L.map (fun p => lowerStr p.1)).foldr
        (fun c acc => componentLine crypto method authority path body headersLower c
          ++ acc) []
        = L.map (fun p => "\"" ++ lowerStr p.1 ++ "\": " ++ p.2) := by
    intro L
    induction L with
    | nil => intro _; rfl
    | cons p rest ih =>
      intro hL
      rw [List.map_cons, List.foldr_cons,
        ih (fun q hq => hL q (List.mem_cons_of_mem p hq)),
        hL p (List.mem_cons_self p rest), List.map_cons]
      rfl
  unfold coveredComponentNames
  rw [List.foldr_append, List.foldr_append,
    hmap (sortedItems extras) (fun p hp => hhx p (mem_of_sortedItems extras p hp))]
  cases body with
  | none => simp [componentLine]
  | some b => simp [componentLine]

/-- Reconstructing the signature base from the signer's own headers and
parsed parameters reproduces the signer's signature base exactly. -/
theorem reconstructSignatureBase_roundtrip (crypto : CryptoPrims)
    (method url : String) (body : Option String) (keyid : String)
    (alg : SignatureAlgorithm) (created expires : Int) (nonce : String)
    (it : InteractionType) (extras : List (String × String)) (sigv : String)
    (hx : ∀ q ∈ extras, (lowerStr q.1).data ≠ [] ∧
      (∀ c ∈ (lowerStr q.1).data, goodNameChar c = true) ∧
      lowerStr q.1 ≠ "content-digest" ∧ lowerStr q.1 ≠ "signature" ∧
      lowerStr q.1 ≠ "signature-input")
    (hnodup : (extras.map (fun q => lowerStr q.1)).Nodup) :
    reconstructSignatureBase crypto method url body
      ([("signature", sigv),
        ("signature-input", "sig1=" ++ buildSignatureParamsLine keyid alg
          (body ≠ none) created expires nonce it extras)]
        ++ extras.map (fun q => (lowerStr q.1, q.2)))
      { keyid := some keyid, created := some created, expires := some expires,
        nonce := some nonce, alg := some alg.wire, tag := some it.value,
        components := some (coveredComponentNames (body ≠ none) extras) }
      = buildSignatureBase crypto keyid alg (upperStr method)
          (urlAuthorityPath url).1 (urlAuthorityPath url).2 body created expires nonce
          it extras := by
  have habs2 : ∀ q ∈ extras.map (fun q => (lowerStr q.1, q.2)),
      q.1 ≠ "signature-input" := by
    intro q hq
    rw [List.mem_map] at hq
    obtain ⟨r, hr, rfl⟩ := hq
    exact (hx r hr).2.2.2.2
  have hsi : dictGet (([("signature", sigv),
      ("signature-input", "sig1=" ++ buildSignatureParamsLine keyid alg
        (body ≠ none) created expires nonce it extras)] : List (String × String))
      ++ extras.map (fun q => (lowerStr q.1, q.2))) "signature-input"
      = some ("sig1=" ++ buildSignatureParamsLine keyid alg
        (body ≠ none) created expires nonce it extras) := by
    rw [dictGet_append, dictGet_none_of_absent _ _ habs2]
    rfl
  have hhx : ∀ p ∈ extras, componentLine crypto method (urlAuthorityPath url).1
      (urlAuthorityPath url).2 body
      ([("signature", sigv),
        ("signature-input", "sig1=" ++ buildSignatureParamsLine keyid alg
          (body ≠ none) created expires nonce it extras)]
        ++ extras.map (fun q => (lowerStr q.1, q.2))) (lowerStr p.1)
      = ["\"" ++ lowerStr p.1 ++ "\": " ++ p.2] :=
    fun p hp => componentLine_extra crypto method (urlAuthorityPath url).1
      (urlAuthorityPath url).2 body _ extras p hp
      (fun q hq => ⟨(hx q hq).1, (hx q hq).2.1, (hx q hq).2.2.1⟩) hnodup
  dsimp only [reconstructSignatureBase]
  rw [hsi, Option.getD_some, Option.getD_some, String.data_append,
    show ("sig1=" : String).data = ['s', 'i', 'g', '1', '='] from rfl,
    if_pos (listPre_append_self ['s', 'i', 'g', '1', '='] _),
    show (['s', 'i', 'g', '1', '=']
        ++ (buildSignatureParamsLine keyid alg (body ≠ none) created expires nonce
          it extras).data).drop 5
      = (buildSignatureParamsLine keyid alg (body ≠ none) created expires nonce
          it extras).data
      from List.drop_left ['s', 'i', 'g', '1', '='] _,
    fold_componentLines crypto method (urlAuthorityPath url).1
      (urlAuthorityPath url).2 body _ extras hhx]
  unfold buildSignatureBase signBaseLines
  simp only [List.append_assoc, List.cons_append, List.nil_append]
  cases body <;> rfl

/-- A string with nonempty character data is not the empty string. -/
theorem ne_empty_of_data_ne (s : String) (h : s.data ≠ []) : s ≠ "" :=
  fun he => h (by rw [he])

/-- C3 (amended): the sign/verify round trip.  For every method, url,
optional body, interaction type, both algorithms and every extra-header
list whose lowercased names are ordinary header names (nonempty strings of
lowercase letters, digits and hyphens, mutually distinct, and none of them
`content-digest`, `signature` or `signature-input`), with a wire-safe keyid
and nonce: the headers `TAPSigner.sign` produces are accepted by a
`TAPVerifier.verify` that has the signer's keyid registered (the
registration's recorded algorithm is never consulted), provided the
signature is fresh, its nonce unused, the nonce store is not at capacity,
and the cryptographic primitives satisfy their contracts (base64 decode
inverts encode, encoded signatures are nonempty and colon-free, and
verification accepts the matching key pair's signature on the signer's
base).  The result is Valid with the registration's display name, the
signer's interaction type, keyid, created and expires, and the nonce is
added to the store. -/
theorem c3_round_trip (crypto : CryptoPrims) (cfg : SignerCfg)
    (method url : String) (body : Option String) (it : InteractionType)
    (extras : List (String × String)) (created : Int) (nonce : String)
    (st : VerifierState) (reg : AgentReg) (now : Int)
    (hcr : 0 ≤ created) (hval : 0 ≤ cfg.validitySeconds)
    (hkidne : cfg.keyid.data ≠ [])
    (hkid : ∀ c ∈ cfg.keyid.data, c ≠ '"' ∧ c ≠ '=')
    (hnne : nonce.data ≠ []) (hnc : ∀ c ∈ nonce.data, c ≠ '"' ∧ c ≠ '=')
    (hx : ∀ q ∈ extras, (lowerStr q.1).data ≠ [] ∧
      (∀ c ∈ (lowerStr q.1).data, goodNameChar c = true) ∧
      lowerStr q.1 ≠ "content-digest" ∧ lowerStr q.1 ≠ "signature" ∧
      lowerStr q.1 ≠ "signature-input")
    (hnodup : (extras.map (fun q => lowerStr q.1)).Nodup)
    (hreg : lookupFirst st.trustedAgents cfg.keyid = some reg)
    (halg : reg.algorithm = cfg.algorithm)
    (hfresh : ¬ created > now + st.maxClockSkew)
    (hexp : ¬ created + cfg.validitySeconds < now)
    (hage : ¬ now - created > st.maxSignatureAge)
    (hnon : ¬ st.usedNonces.contains (some nonce) = true)
    (hcap : st.usedNonces.length < 10000)
    (hencne : (crypto.b64encode (createSignature crypto cfg.privateKey
      (signatureBaseOf crypto cfg method url body it extras created nonce))).data
      ≠ [])
    (hencc : ∀ c ∈ (crypto.b64encode (createSignature crypto cfg.privateKey
      (signatureBaseOf crypto cfg method url body it extras created nonce))).data,
      c ≠ ':')
    (hdec : crypto.b64decode (crypto.b64encode (createSignature crypto
      cfg.privateKey
      (signatureBaseOf crypto cfg method url body it extras created nonce)))
      = some (createSignature crypto cfg.privateKey
        (signatureBaseOf crypto cfg method url body it extras created nonce)))
    (hver : verifySignature crypto reg.publicKey
      (createSignature crypto cfg.privateKey
        (signatureBaseOf crypto cfg method url body it extras created nonce))
      (signatureBaseOf crypto cfg method url body it extras created nonce)
      = true) :
    verify crypto st method url
      ((sign crypto cfg method url body it extras created nonce).toHeaders ++ extras)
      body now
      = some (.valid reg.name it cfg.keyid created (created + cfg.validitySeconds),
          { st with usedNonces := some nonce :: st.usedNonces }) := by
  have habs1 : ∀ q ∈ extras.map (fun q => (lowerStr q.1, q.2)),
      q.1 ≠ "signature" := by
    intro q hq
    rw [List.mem_map] at hq
    obtain ⟨r, hr, rfl⟩ := hq
    exact (hx r hr).2.2.2.1
  have habs2 : ∀ q ∈ extras.map (fun q => (lowerStr q.1, q.2)),
      q.1 ≠ "signature-input" := by
    intro q hq
    rw [List.mem_map] at hq
    obtain ⟨r, hr, rfl⟩ := hq
    exact (hx r hr).2.2.2.2
  have hmaps : (((sign crypto cfg method url body it extras created nonce).toHeaders
      ++ extras).map (fun p => (lowerStr p.1, p.2)))
      = [("signature", "sig1=:" ++ crypto.b64encode (createSignature crypto
          cfg.privateKey (signatureBaseOf crypto cfg method url body it extras
          created nonce)) ++ ":"),
         ("signature-input", "sig1=" ++ buildSignatureParamsLine cfg.keyid
          cfg.algorithm (body ≠ none) created (created + cfg.validitySeconds) nonce
          it extras)]
        ++ extras.map (fun p => (lowerStr p.1, p.2)) := by
    rw [show (sign crypto cfg method url body it extras created nonce).toHeaders
        = [("Signature", "sig1=:" ++ crypto.b64encode (createSignature crypto
            cfg.privateKey (signatureBaseOf crypto cfg method url body it extras
            created nonce)) ++ ":"),
           ("Signature-Input", "sig1=" ++ buildSignatureParamsLine cfg.keyid
            cfg.algorithm (body ≠ none) created (created + cfg.validitySeconds)
            nonce it extras)] from rfl]
    rw [List.map_append]
    rfl
  have hgs : dictGet ([("signature", "sig1=:" ++ crypto.b64encode
      (createSignature crypto cfg.privateKey (signatureBaseOf crypto cfg method url
        body it extras created nonce)) ++ ":"),
      ("signature-input", "sig1=" ++ buildSignatureParamsLine cfg.keyid
        cfg.algorithm (body ≠ none) created (created + cfg.validitySeconds) nonce
        it extras)]
      ++ extras.map (fun p => (lowerStr p.1, p.2))) "signature"
      = some ("sig1=:" ++ crypto.b64encode (createSignature crypto cfg.privateKey
        (signatureBaseOf crypto cfg method url body it extras created nonce))
        ++ ":") := by
    rw [dictGet_append, dictGet_none_of_absent _ _ habs1]
    rfl
  have hgsi : dictGet ([("signature", "sig1=:" ++ crypto.b64encode
      (createSignature crypto cfg.privateKey (signatureBaseOf crypto cfg method url
        body it extras created nonce)) ++ ":"),
      ("signature-input", "sig1=" ++ buildSignatureParamsLine cfg.keyid
        cfg.algorithm (body ≠ none) created (created + cfg.validitySeconds) nonce
        it extras)]
      ++ extras.map (fun p => (lowerStr p.1, p.2))) "signature-input"
      = some ("sig1=" ++ buildSignatureParamsLine cfg.keyid cfg.algorithm
        (body ≠ none) created (created + cfg.validitySeconds) nonce it extras) := by
    rw [dictGet_append, dictGet_none_of_absent _ _ habs2]
    rfl
  have hparse0 : parseSignatureInput ("sig1=" ++ buildSignatureParamsLine cfg.keyid
      cfg.algorithm (body ≠ none) created (created + cfg.validitySeconds) nonce it
      extras)
      = some { keyid := some cfg.keyid, created := some created,
               expires := some (created + cfg.validitySeconds), nonce := some nonce,
               alg := some cfg.algorithm.wire, tag := some it.value,
               components := some (coveredComponentNames (body ≠ none) extras) } :=
    parseSignatureInput_roundtrip cfg.keyid cfg.algorithm (body ≠ none) created
      (created + cfg.validitySeconds) nonce it extras hcr (by omega) hkidne hkid
      hnne hnc (fun p hp => ⟨(hx p hp).1, (hx p hp).2.1⟩)
  have hbase : reconstructSignatureBase crypto method url body
      ([("signature", "sig1=:" ++ crypto.b64encode (createSignature crypto
        cfg.privateKey (signatureBaseOf crypto cfg method url body it extras
        created nonce)) ++ ":"),
        ("signature-input", "sig1=" ++ buildSignatureParamsLine cfg.keyid
          cfg.algorithm (body ≠ none) created (created + cfg.validitySeconds) nonce
          it extras)]
        ++ extras.map (fun q => (lowerStr q.1, q.2)))
      { keyid := some cfg.keyid, created := some created,
        expires := some (created + cfg.validitySeconds), nonce := some nonce,
        alg := some cfg.algorithm.wire, tag := some it.value,
        components := some (coveredComponentNames (body ≠ none) extras) }
      = signatureBaseOf crypto cfg method url body it extras created nonce :=
    (reconstructSignatureBase_roundtrip crypto method url body cfg.keyid
      cfg.algorithm created (created + cfg.validitySeconds) nonce it extras
      ("sig1=:" ++ crypto.b64encode (createSignature crypto cfg.privateKey
        (signatureBaseOf crypto cfg method url body it extras created nonce))
        ++ ":") hx hnodup).trans rfl
  have hcn : commitNonce st.usedNonces (some nonce)
      = some nonce :: st.usedNonces := by
    unfold commitNonce
    rw [if_neg (by simp only [List.length_cons]; omega)]
  have hit : (if it.value = "checkout" then InteractionType.checkout
      else InteractionType.browsing) = it := by
    cases it <;> decide
  unfold verify
  rw [hmaps]
  rw [if_neg (by
    rw [hgs, hgsi]
    simp only [not_and, not_not, truthy]
    intro h1
    exact absurd (h1 (by
      simp only [ne_eq, decide_eq_true_eq]
      exact ne_empty_of_data_ne _ (by simp [String.data_append])))
      (by
        simp only [ne_eq, decide_eq_true_eq, not_not]
        intro h2
        exact absurd h2 (ne_empty_of_data_ne _ (by simp [String.data_append]))))]
  rw [hgsi]
  rw [show (some ("sig1=" ++ buildSignatureParamsLine cfg.keyid cfg.algorithm
      (body ≠ none) created (created + cfg.validitySeconds) nonce it
      extras)).getD "" = "sig1=" ++ buildSignatureParamsLine cfg.keyid
      cfg.algorithm (body ≠ none) created (created + cfg.validitySeconds) nonce it
      extras from rfl]
  rw [hparse0]
  dsimp only
  rw [hreg]
  dsimp only
  rw [if_neg hfresh]
  rw [if_neg hexp, if_neg hage, if_neg hnon, hgs]
  rw [show (some ("sig1=:" ++ crypto.b64encode (createSignature crypto
      cfg.privateKey (signatureBaseOf crypto cfg method url body it extras created
      nonce)) ++ ":")).getD "" = "sig1=:" ++ crypto.b64encode (createSignature
      crypto cfg.privateKey (signatureBaseOf crypto cfg method url body it extras
      created nonce)) ++ ":" from rfl]
  rw [extractSignature_roundtrip crypto _ hencne hencc, hdec]
  dsimp only
  rw [hbase, if_pos hver]
  rw [show (some it.value).getD "browsing" = it.value from rfl]
  rw [hit, hcn]

/-- Witness for C3's theorem: the concrete scenario-1 signer round-trips
through the matching verifier with an extra covered header `X-A`. -/
theorem c3_round_trip_witness :
    verify toyCrypto c3Registry "GET"
        "https://merchant.example/api/products?q=headphones"
        ((sign toyCrypto scenario1Signer "GET"
          "https://merchant.example/api/products?q=headphones" none .browsing
          [("X-A", "1")] 1700000000 "n1").toHeaders ++ [("X-A", "1")])
        none 1700000100
      = some (.valid "A" .browsing "urn:agent:a" 1700000000 1700000300,
          { c3Registry with usedNonces := [some "n1"] }) :=
  c3_round_trip toyCrypto scenario1Signer "GET"
    "https://merchant.example/api/products?q=headphones" none .browsing
    [("X-A", "1")] 1700000000 "n1" c3Registry
    { publicKey := .ed "sk-a", name := "A", algorithm := .ed25519 }
    1700000100
    (by decide) (by decide) (by decide) (by decide) (by decide) (by decide)
    (by decide) (by decide) (by decide) (by decide) (by decide) (by decide)
    (by decide) (by decide) (by decide) (by decide) (by decide) (by decide)
    (by decide)

end TAP
